import Mathlib

/-!
# Woff2OT: WOFF to OpenType converter (`woff2ot.h`, `woff2ot.cpp`)

A shallow embedding of the converter.  Conventions of the embedding:

* a byte is a `Fin 256`; a file is the list of its bytes;
* the fixed-width unsigned integers of the source are natural numbers, reduced
  `% 2^w` wherever the source can wrap;
* the host is little-endian (the source converts wire order to host order with
  `bswap16`/`bswap32`), `long` and `uLongf` are 64 bits wide;
* a structure that the source reads or writes as raw memory (`fread(&hdr, ...)`,
  `fwrite(&record, ...)`) is decoded from, or encoded to, its little-endian
  memory image with `load16`/`load32`/`store16`/`store32`;
* a C++ exception is the `Thrown.runtime_error` result; an access outside one of
  the two scratch buffers of `write_tables` is the `Thrown.out_of_bounds` result;
* the collaborators that are not part of the repository (zlib, the memory that
  lies behind a local variable) are the fields of `World`.
-/

namespace Woff2ot

/-! ## Bytes, byte order, memory images -/

abbrev byte_t := Fin 256

/-- The macro `bswap16(x)`: the argument is converted to 16 bits and its two bytes
are exchanged. -/
def bswap16 (x : Nat) : Nat := (x % 256) * 256 + (x / 256) % 256

/-- The macro `bswap32(x)`: the argument is converted to 32 bits and its four bytes
are reversed. -/
def bswap32 (x : Nat) : Nat :=
  (x % 256) * 16777216 + (x / 256 % 256) * 65536 + (x / 65536 % 256) * 256
    + (x / 16777216) % 256

/-- Memory image of a `uint16_t` on the little-endian host. -/
def store16 (x : Nat) : List byte_t := [Fin.ofNat x, Fin.ofNat (x / 256)]

/-- Memory image of a `uint32_t` on the little-endian host. -/
def store32 (x : Nat) : List byte_t :=
  [Fin.ofNat x, Fin.ofNat (x / 256), Fin.ofNat (x / 65536), Fin.ofNat (x / 16777216)]

/-- Value of the `uint16_t` whose memory image starts at index `off` of `m`. -/
def load16 (m : List byte_t) (off : Nat) : Nat :=
  (m.getD off 0).val + 256 * (m.getD (off + 1) 0).val

/-- Value of the `uint32_t` whose memory image starts at index `off` of `m`. -/
def load32 (m : List byte_t) (off : Nat) : Nat :=
  (m.getD off 0).val + 256 * (m.getD (off + 1) 0).val + 65536 * (m.getD (off + 2) 0).val
    + 16777216 * (m.getD (off + 3) 0).val

/-- Big-endian (wire order) encoding of a 16-bit value. -/
def be16 (x : Nat) : List byte_t := [Fin.ofNat (x / 256), Fin.ofNat x]

/-- Big-endian (wire order) encoding of a 32-bit value. -/
def be32 (x : Nat) : List byte_t :=
  [Fin.ofNat (x / 16777216), Fin.ofNat (x / 65536), Fin.ofNat (x / 256), Fin.ofNat x]

/-- Big-endian (wire order) value of the four bytes of `m` that start at `off`. -/
def read_be32 (m : List byte_t) (off : Nat) : Nat :=
  16777216 * (m.getD off 0).val + 65536 * (m.getD (off + 1) 0).val
    + 256 * (m.getD (off + 2) 0).val + (m.getD (off + 3) 0).val

/-- Big-endian (wire order) value of the two bytes of `m` that start at `off`. -/
def read_be16 (m : List byte_t) (off : Nat) : Nat :=
  256 * (m.getD off 0).val + (m.getD (off + 1) 0).val

/-! ## Constants and structures -/

def OPENTYPE_TRUETYPE : Nat := 0x00010000
def OPENTYPE_TRUETYPE_MAC : Nat := 0x74727565
def OPENTYPE_CFF : Nat := 0x4F54544F

/-- The struct `WOFF_header`; `sizeof(WOFF_header) = 44`. -/
structure WOFF_header where
  m_signature : Nat
  m_flavor : Nat
  m_length : Nat
  m_num_tables : Nat
  m_reserved : Nat
  m_total_sfnt_size : Nat
  m_major_version : Nat
  m_minor_version : Nat
  m_meta_offset : Nat
  m_meta_length : Nat
  m_meta_orig_length : Nat
  m_priv_offset : Nat
  m_priv_length : Nat
deriving DecidableEq, Repr

def sizeof_WOFF_header : Nat := 44

/-- The header object after `fread(&hdr, 1, sizeof(hdr), ...)` has filled it with the
44 bytes `m`. -/
def WOFF_header.of_memory (m : List byte_t) : WOFF_header where
  m_signature := load32 m 0
  m_flavor := load32 m 4
  m_length := load32 m 8
  m_num_tables := load16 m 12
  m_reserved := load16 m 14
  m_total_sfnt_size := load32 m 16
  m_major_version := load16 m 20
  m_minor_version := load16 m 22
  m_meta_offset := load32 m 24
  m_meta_length := load32 m 28
  m_meta_orig_length := load32 m 32
  m_priv_offset := load32 m 36
  m_priv_length := load32 m 40

/-- The struct `table_directory_entry`; `sizeof(table_directory_entry) = 20`. -/
structure table_directory_entry where
  tag : Nat
  offset : Nat
  comp_length : Nat
  orig_length : Nat
  orig_checksum : Nat
deriving DecidableEq, Repr

def sizeof_table_directory_entry : Nat := 20

/-- The entry whose memory image is the 20 bytes of `m` that start at `off`. -/
def table_directory_entry.of_memory (m : List byte_t) (off : Nat) : table_directory_entry where
  tag := load32 m off
  offset := load32 m (off + 4)
  comp_length := load32 m (off + 8)
  orig_length := load32 m (off + 12)
  orig_checksum := load32 m (off + 16)

/-- The vector of `num_tables` entries after `fread` has filled it with the bytes `m`. -/
def directory_of_memory (m : List byte_t) (num_tables : Nat) : List table_directory_entry :=
  (List.range num_tables).map
    (fun i => table_directory_entry.of_memory m (i * sizeof_table_directory_entry))

/-- The struct `offset_table`; `sizeof(offset_table) = 12`. -/
structure offset_table where
  sfntVersion : Nat
  numTables : Nat
  searchRange : Nat
  entrySelector : Nat
  rangeShift : Nat
deriving DecidableEq, Repr

def sizeof_offset_table : Nat := 12

/-- Memory image of an `offset_table`. -/
def offset_table.memory (h : offset_table) : List byte_t :=
  store32 h.sfntVersion ++ store16 h.numTables ++ store16 h.searchRange
    ++ store16 h.entrySelector ++ store16 h.rangeShift

/-- The struct `table_record`; `sizeof(table_record) = 16`. -/
structure table_record where
  table_tag : Nat
  checksum : Nat
  offset : Nat
  length : Nat
deriving DecidableEq, Repr

def sizeof_table_record : Nat := 16

/-- Memory image of a `table_record`. -/
def table_record.memory (r : table_record) : List byte_t :=
  store32 r.table_tag ++ store32 r.checksum ++ store32 r.offset ++ store32 r.length

/-! ## Files -/

/-- An open stream: the bytes of the file and the file position. -/
structure FILE where
  data : List byte_t
  pos : Nat
deriving DecidableEq, Repr

/-- The call `fread(ptr, 1, count, f)`: the bytes delivered (at most `count`, fewer at
the end of the file) and the stream afterwards. -/
def fread (count : Nat) (f : FILE) : List byte_t × FILE :=
  let got := (f.data.drop f.pos).take count
  (got, { f with pos := f.pos + got.length })

/-- The call `fwrite(ptr, 1, count, f)` where `buf` are the `count` bytes at `ptr`: the
bytes replace or extend the file at the file position (a gap is filled with zeros). -/
def fwrite (buf : List byte_t) (f : FILE) : FILE where
  data := f.data.take f.pos ++ List.replicate (f.pos - f.data.length) 0 ++ buf
    ++ f.data.drop (f.pos + buf.length)
  pos := f.pos + buf.length

/-- The call `fseek(f, offset, SEEK_SET)`. -/
def fseek (f : FILE) (offset : Nat) : FILE := { f with pos := offset }

/-- The call `ftell(f)`. -/
def ftell (f : FILE) : Nat := f.pos

/-- The two streams of a `Woff2OT` object while both are open. -/
structure Woff2OT where
  m_input_file : FILE
  m_output_file : FILE
deriving DecidableEq, Repr

/-- How a member function is left other than by returning. -/
inductive Thrown where
  | runtime_error (what : String)
  | out_of_bounds
deriving DecidableEq, Repr

/-- What the repository takes from outside: zlib, and the memory that follows the local
variable `record` of `write_temp_table_record`. -/
structure World where
  /-- The stream decoder of zlib: the decoded data of a complete, valid zlib stream. -/
  inflate : List byte_t → Option (List byte_t)
  /-- The byte found `k` bytes behind the end of `record`. -/
  stack : Nat → byte_t

def Z_OK : Int := 0
def Z_DATA_ERROR : Int := -3
def Z_BUF_ERROR : Int := -5

/-- The zlib call `uncompress(dest, &destLen, source, sourceLen)`, `source` being the
`sourceLen` bytes passed: the return code, the destination buffer and `destLen`
afterwards.  The decoded data is stored when it fits into `destLen` bytes. -/
def uncompress (w : World) (dest : List byte_t) (destLen : Nat) (source : List byte_t) :
    Int × List byte_t × Nat :=
  match w.inflate source with
  | none => (Z_DATA_ERROR, dest, destLen)
  | some out =>
    if out.length ≤ destLen then (Z_OK, out ++ dest.drop out.length, out.length)
    else (Z_BUF_ERROR, dest, destLen)

/-- The library function `qsort`: the first `nmemb` elements of the array sorted by the
sign of `compar`, here by insertion (elements that compare equal keep their order). -/
def qsort {α : Type} (base : List α) (nmemb : Nat) (compar : α → α → Int) : List α :=
  (base.take nmemb).insertionSort (fun a b => compar a b ≤ 0) ++ base.drop nmemb

/-- The library function `strncmp` on the bytes at two addresses: the difference of the
first pair of differing bytes (as `unsigned char`), `0` when none differs among the first
`n` bytes or before a terminating zero byte. -/
def strncmp : List byte_t → List byte_t → Nat → Int
  | a :: s1, b :: s2, n + 1 =>
    if a ≠ b then (a.val : Int) - (b.val : Int)
    else if a = 0 then 0
    else strncmp s1 s2 n
  | _, _, _ => 0

/-- Conversion of a 32-bit unsigned value to `int`. -/
def to_int (x : Nat) : Int :=
  if x % 4294967296 < 2147483648 then ((x % 4294967296 : Nat) : Int)
  else ((x % 4294967296 : Nat) : Int) - 4294967296

/-! ## The member functions of `Woff2OT` -/

/-- The member `compute_table_sizes`: the 32-bit sum of the padded table lengths, the
lengths being still in wire order in memory. -/
def compute_table_sizes (tbl_directory_entry_data : List table_directory_entry)
    (num_tables : Nat) : Nat :=
  (tbl_directory_entry_data.take num_tables).foldl
    (fun total_size e =>
      let size := bswap32 e.orig_length
      (total_size + (((size + 3) % 4294967296) &&& 0xFFFFFFFC)) % 4294967296)
    0

/-- The `n` bytes of memory that start at the address of the local `record` of
`write_temp_table_record`: the 16 bytes of the zero-initialised record, then whatever
lies behind it. -/
def memory_at_record (w : World) (n : Nat) : List byte_t :=
  (List.range n).map (fun k =>
    if k < sizeof_table_record then
      (table_record.memory { table_tag := 0, checksum := 0, offset := 0, length := 0 }).getD k 0
    else w.stack (k - sizeof_table_record))

/-- The member `write_temp_table_record`. -/
def write_temp_table_record (w : World) (num_tables : Nat) (s : Woff2OT) : Woff2OT :=
  { s with m_output_file :=
      fwrite (memory_at_record w (num_tables * sizeof_table_record)) s.m_output_file }

/-- The three assignments of the loop of `get_max_buffer_size`: the entry with
`orig_length`, `offset` and `comp_length` converted to host order. -/
def host_order (e : table_directory_entry) : table_directory_entry :=
  { e with orig_length := bswap32 e.orig_length, offset := bswap32 e.offset,
           comp_length := bswap32 e.comp_length }

/-- The member `get_max_buffer_size`: the largest `orig_length`, and the entries as the
loop leaves them. -/
def get_max_buffer_size (tbl_directory_entry_data : List table_directory_entry)
    (num_tables : Nat) : Nat × List table_directory_entry :=
  let converted := (tbl_directory_entry_data.take num_tables).map host_order
  (converted.foldl (fun size e => if e.orig_length > size then e.orig_length else size) 0,
    converted ++ tbl_directory_entry_data.drop num_tables)

/-- The loop of `pad_table` from index `i` on, `count` iterations; `none` when an index
lies outside the buffer. -/
def pad_table_loop (buffer : List byte_t) (i : Nat) : Nat → Option (List byte_t)
  | 0 => some buffer
  | count + 1 =>
    if i < buffer.length then pad_table_loop (buffer.set i 0) (i + 1) count else none

/-- The member `pad_table`. -/
def pad_table (buffer : List byte_t) (length padded_length : Nat) : Option (List byte_t) :=
  pad_table_loop buffer length (padded_length - length)

/-- The member `compare_offset`: the 32-bit difference of the offsets, converted to
`int`. -/
def compare_offset (i j : table_directory_entry) : Int :=
  to_int ((i.offset + 4294967296 - j.offset) % 4294967296)

/-- The bytes of `got` stored at the start of `buffer`; `none` when they do not fit. -/
def store_at_start (buffer got : List byte_t) : Option (List byte_t) :=
  if got.length ≤ buffer.length then some (got ++ buffer.drop got.length) else none

/-- The first `count` bytes of `buffer`; `none` when the buffer is shorter. -/
def first_bytes (buffer : List byte_t) (count : Nat) : Option (List byte_t) :=
  if count ≤ buffer.length then some (buffer.take count) else none

/-- One iteration of the loop of `write_tables` on the entry `entry`: the updated entry
and the two buffers afterwards, or how the iteration was left; and the streams. -/
def write_tables_body (w : World) (buffer_size : Nat) (entry : table_directory_entry)
    (original_data compressed_data : List byte_t) (s : Woff2OT) :
    Except Thrown (table_directory_entry × List byte_t × List byte_t) × Woff2OT :=
  let offset := entry.offset
  let orig_length := entry.orig_length
  let compressed_length := entry.comp_length
  let input := fseek s.m_input_file offset
  let entry := { entry with offset := bswap32 (ftell s.m_output_file) }
  if compressed_length < orig_length then
    let dest_len := buffer_size
    let (got, input) := fread compressed_length input
    let s := { s with m_input_file := input }
    match store_at_start compressed_data got with
    | none => (.error .out_of_bounds, s)
    | some compressed_data =>
      match first_bytes compressed_data compressed_length with
      | none => (.error .out_of_bounds, s)
      | some source =>
        let (ret, original_data, dest_len) := uncompress w original_data dest_len source
        if ret ≠ Z_OK then
          (.error (.runtime_error "Error decompressing the table"), s)
        else if dest_len ≠ orig_length then
          (.error (.runtime_error "Decompressed length does not match the original length"), s)
        else
          let new_dest_len := (dest_len + 3) &&& 0xFFFFFFFC
          match pad_table original_data dest_len new_dest_len with
          | none => (.error .out_of_bounds, s)
          | some original_data =>
            match first_bytes original_data new_dest_len with
            | none => (.error .out_of_bounds, s)
            | some block =>
              (.ok ({ entry with orig_length := bswap32 dest_len }, original_data,
                  compressed_data),
                { s with m_output_file := fwrite block s.m_output_file })
  else
    let new_length := (orig_length + 3) &&& 0xFFFFFFFC
    let (got, input) := fread orig_length input
    let s := { s with m_input_file := input }
    match store_at_start original_data got with
    | none => (.error .out_of_bounds, s)
    | some original_data =>
      match pad_table original_data orig_length new_length with
      | none => (.error .out_of_bounds, s)
      | some original_data =>
        match first_bytes original_data new_length with
        | none => (.error .out_of_bounds, s)
        | some block =>
          (.ok ({ entry with orig_length := bswap32 orig_length }, original_data,
              compressed_data),
            { s with m_output_file := fwrite block s.m_output_file })

/-- The loop of `write_tables` over the entries still to be written. -/
def write_tables_loop (w : World) (buffer_size : Nat) :
    List table_directory_entry → List byte_t → List byte_t → Woff2OT →
      Except Thrown (List table_directory_entry) × Woff2OT
  | [], _, _, s => (.ok [], s)
  | entry :: rest, original_data, compressed_data, s =>
    match write_tables_body w buffer_size entry original_data compressed_data s with
    | (.error e, s) => (.error e, s)
    | (.ok (entry, original_data, compressed_data), s) =>
      match write_tables_loop w buffer_size rest original_data compressed_data s with
      | (.error e, s) => (.error e, s)
      | (.ok rest, s) => (.ok (entry :: rest), s)

/-- The member `write_tables`: the entries as the loop leaves them, or how the function
was left; and the streams. -/
def write_tables (w : World) (tbl_directory_entry_data : List table_directory_entry)
    (num_tables : Nat) (s : Woff2OT) :
    Except Thrown (List table_directory_entry) × Woff2OT :=
  let (size, tbl_directory_entry_data) :=
    get_max_buffer_size tbl_directory_entry_data num_tables
  let buffer_size := (size + 4) % 4294967296
  let original_data : List byte_t := List.replicate buffer_size 0
  let compressed_data : List byte_t := List.replicate buffer_size 0
  let tbl_directory_entry_data := qsort tbl_directory_entry_data num_tables compare_offset
  write_tables_loop w buffer_size (tbl_directory_entry_data.take num_tables)
    original_data compressed_data s

/-- The member `compare_tag`: `strncmp` on the memory images of the two tags. -/
def compare_tag (i j : table_directory_entry) : Int :=
  strncmp (store32 i.tag) (store32 j.tag) 4

/-- The record that `rewrite_table_record` fills from an entry. -/
def record_of_entry (entry : table_directory_entry) : table_record where
  checksum := entry.orig_checksum
  length := entry.orig_length
  offset := entry.offset
  table_tag := entry.tag

/-- The member `rewrite_table_record`. -/
def rewrite_table_record (offset : Nat) (tbl_directory_entry_data : List table_directory_entry)
    (num_tables : Nat) (s : Woff2OT) : Woff2OT :=
  let tbl_directory_entry_data := qsort tbl_directory_entry_data num_tables compare_tag
  (tbl_directory_entry_data.take num_tables).foldl
    (fun s entry =>
      { s with m_output_file := fwrite (record_of_entry entry).memory s.m_output_file })
    { s with m_output_file := fseek s.m_output_file offset }

/-- The member `max_power_of_2`: the loop counts `i` down from `num_tables`. -/
def max_power_of_2 : Nat → Nat
  | 0 => 0
  | i + 1 => if (i + 1) &&& i = 0 then i + 1 else max_power_of_2 i

/-- The library function `log2` followed by the conversion to `uint16_t`, on the values
the converter passes (powers of two, where the result is exact). -/
def log2 (x : Nat) : Nat := Nat.log2 x

/-- The header that `write_ot_header` builds. -/
def ot_header (flavor num_tables : Nat) : offset_table :=
  let mp2 := max_power_of_2 num_tables
  { sfntVersion := flavor
    numTables := bswap16 num_tables
    searchRange := bswap16 (mp2 * 16)
    entrySelector := bswap16 (log2 mp2)
    rangeShift := bswap16 (num_tables * 16 - mp2 * 16) }

/-- The member `write_ot_header`. -/
def write_ot_header (flavor num_tables : Nat) (s : Woff2OT) : Woff2OT :=
  { s with m_output_file := fwrite (ot_header flavor num_tables).memory s.m_output_file }

/-- The member `parse_input_file`. -/
def parse_input_file (w : World) (s : Woff2OT) : Except Thrown Unit × Woff2OT :=
  let (got, input) := fread sizeof_WOFF_header s.m_input_file
  let s := { s with m_input_file := input }
  if got.length ≠ sizeof_WOFF_header then
    (.error (.runtime_error "Error reading the input file"), s)
  else
    let hdr := WOFF_header.of_memory got
    let num_tables := bswap16 hdr.m_num_tables
    if num_tables > 0 then
      let total_sfnt_size := bswap32 hdr.m_total_sfnt_size
      let size_to_read := num_tables * sizeof_table_directory_entry
      let s := write_ot_header hdr.m_flavor num_tables s
      let offset := ftell s.m_output_file
      let s := write_temp_table_record w num_tables s
      let (got, input) := fread size_to_read s.m_input_file
      let s := { s with m_input_file := input }
      if got.length ≠ size_to_read then
        (.error (.runtime_error "Error reading the table directory entries"), s)
      else
        let tbl_directory_entry_data := directory_of_memory got num_tables
        let total_table_size := compute_table_sizes tbl_directory_entry_data num_tables
        let computed_sfnt_size :=
          (sizeof_offset_table + num_tables * sizeof_table_record + total_table_size)
            % 4294967296
        if total_sfnt_size ≠ computed_sfnt_size then
          (.error (.runtime_error "Invalid \x27totalSfntSize\x27 size"), s)
        else
          match write_tables w tbl_directory_entry_data num_tables s with
          | (.error e, s) => (.error e, s)
          | (.ok tbl_directory_entry_data, s) =>
            (.ok (), rewrite_table_record offset tbl_directory_entry_data num_tables s)
    else
      (.error (.runtime_error "No tables found"), s)

/-- What a call of `convert` leaves behind: the value returned, the member `m_error`,
the bytes of the output file (empty when it could not be created), and whether every
buffer access stayed inside its buffer (when not, the run is not defined by the language
and `result`, `m_error` and `ot_file` say nothing about it). -/
structure Conversion where
  result : Bool
  m_error : String
  ot_file : List byte_t
  in_bounds : Bool
deriving DecidableEq, Repr

/-- The `try`/`catch` of `convert`: what the call leaves behind when the body ended as
`r`. -/
def conversion_of (r : Except Thrown Unit × Woff2OT) : Conversion :=
  match r with
  | (.ok _, s) =>
    { result := true, m_error := "", ot_file := s.m_output_file.data, in_bounds := true }
  | (.error (.runtime_error what), s) =>
    { result := false, m_error := what, ot_file := s.m_output_file.data, in_bounds := true }
  | (.error .out_of_bounds, s) =>
    { result := false, m_error := "", ot_file := s.m_output_file.data, in_bounds := false }

/-- The member `convert`.  `woff_file` is the content of the input file, `none` when it
cannot be opened; `ot_file` tells whether the output file can be created. -/
def convert (w : World) (woff_file : Option (List byte_t)) (ot_file : Bool) : Conversion :=
  match woff_file with
  | none =>
    { result := false, m_error := "Unable to load the WOFF font file", ot_file := [],
      in_bounds := true }
  | some input =>
    if ot_file = false then
      { result := false, m_error := "Unable to create the OpenType file", ot_file := [],
        in_bounds := true }
    else
      conversion_of (parse_input_file w
        { m_input_file := { data := input, pos := 0 },
          m_output_file := { data := [], pos := 0 } })

/-- The member `get_font_type`. -/
def get_font_type (woff_file : Option (List byte_t)) : Nat :=
  match woff_file with
  | none => 0
  | some input =>
    let (got, _) := fread sizeof_WOFF_header { data := input, pos := 0 }
    if got.length ≠ sizeof_WOFF_header then 0
    else bswap32 (WOFF_header.of_memory got).m_flavor

/-! ## The two containers as the specification describes them -/

/-- Table count of the WOFF header (bytes 12..13, wire order). -/
def woff_num_tables (input : List byte_t) : Nat := read_be16 input 12

/-- Declared `totalSfntSize` of the WOFF header (bytes 16..19, wire order). -/
def woff_total_sfnt_size (input : List byte_t) : Nat := read_be32 input 16

/-- The four flavor bytes of the WOFF header. -/
def woff_flavor (input : List byte_t) : List byte_t := (input.drop 4).take 4

/-- The four tag bytes of directory entry `i` of the input. -/
def woff_tag (input : List byte_t) (i : Nat) : List byte_t := (input.drop (44 + 20 * i)).take 4

/-- Source offset of directory entry `i` of the input. -/
def woff_offset (input : List byte_t) (i : Nat) : Nat := read_be32 input (44 + 20 * i + 4)

/-- Stored (compressed) length of directory entry `i` of the input. -/
def woff_comp_length (input : List byte_t) (i : Nat) : Nat := read_be32 input (44 + 20 * i + 8)

/-- Uncompressed length of directory entry `i` of the input. -/
def woff_orig_length (input : List byte_t) (i : Nat) : Nat := read_be32 input (44 + 20 * i + 12)

/-- The four checksum bytes of directory entry `i` of the input. -/
def woff_checksum (input : List byte_t) (i : Nat) : List byte_t :=
  (input.drop (44 + 20 * i + 16)).take 4

/-- The padding function of the specification: `pad4(x) = ceil(x/4)*4`. -/
def pad4 (x : Nat) : Nat := (x + 3) / 4 * 4

/-- The four tag bytes of table record `i` of the output. -/
def ot_tag (out : List byte_t) (i : Nat) : List byte_t := (out.drop (12 + 16 * i)).take 4

/-- The four checksum bytes of table record `i` of the output. -/
def ot_checksum (out : List byte_t) (i : Nat) : List byte_t :=
  (out.drop (12 + 16 * i + 4)).take 4

/-- Offset field of table record `i` of the output. -/
def ot_offset (out : List byte_t) (i : Nat) : Nat := read_be32 out (12 + 16 * i + 8)

/-- Length field of table record `i` of the output. -/
def ot_length (out : List byte_t) (i : Nat) : Nat := read_be32 out (12 + 16 * i + 12)

/-! ## The stages of `parse_input_file` -/

/-- The vector `tbl_directory_entry` when the directory of `input` has been read. -/
def woff_directory (input : List byte_t) : List table_directory_entry :=
  directory_of_memory ((input.drop 44).take (woff_num_tables input * 20)) (woff_num_tables input)

/-- The streams when the directory has been read: the output holds the header and the
placeholder. -/
def after_directory (w : World) (input : List byte_t) : Woff2OT where
  m_input_file := { data := input, pos := 44 + woff_num_tables input * 20 }
  m_output_file :=
    { data := (ot_header (load32 input 4) (woff_num_tables input)).memory ++
        memory_at_record w (woff_num_tables input * 16)
      pos := 12 + woff_num_tables input * 16 }

/-- The value `computed_sfnt_size` of `parse_input_file`. -/
def computed_sfnt_size (input : List byte_t) : Nat :=
  (12 + woff_num_tables input * 16 +
    compute_table_sizes (woff_directory input) (woff_num_tables input)) % 4294967296

/-- The part of `parse_input_file` behind the size check: `write_tables`, then
`rewrite_table_record`. -/
def transcode (w : World) (input : List byte_t) : Except Thrown Unit × Woff2OT :=
  match write_tables w (woff_directory input) (woff_num_tables input)
      (after_directory w input) with
  | (.error e, s) => (.error e, s)
  | (.ok tbl, s) => (.ok (), rewrite_table_record 12 tbl (woff_num_tables input) s)

/-! ## The loop of `write_tables` and the records, in closed form -/

/-- The padded length as `write_tables` computes it. -/
def padded (length : Nat) : Nat := (length + 3) &&& 0xFFFFFFFC

/-- The entry as one iteration of `write_tables` leaves it when the output position is `pos`. -/
def recorded_entry (pos : Nat) (e : table_directory_entry) : table_directory_entry :=
  { e with offset := bswap32 pos, orig_length := bswap32 e.orig_length }

/-- The entries as the loop of `write_tables` leaves them when it starts at output position `pos`. -/
def recorded (pos : Nat) : List table_directory_entry → List table_directory_entry
  | [] => []
  | e :: es => recorded_entry pos e :: recorded (pos + padded e.orig_length) es

/-- The size of the two scratch buffers of `write_tables`. -/
def scratch_size (tbl : List table_directory_entry) : Nat :=
  ((tbl.map host_order).foldl (fun size e => if e.orig_length > size then e.orig_length else size) 0
    + 4) % 4294967296

/-- The entries in the order in which `write_tables` writes their tables. -/
def write_order (tbl : List table_directory_entry) : List table_directory_entry :=
  (tbl.map host_order).insertionSort (fun a b => compare_offset a b ≤ 0)

/-- The entries as `write_tables` leaves them in a conversion of `input` that succeeds: in the
order written, with the offset and length recorded. -/
def written (input : List byte_t) : List table_directory_entry :=
  recorded (12 + woff_num_tables input * 16) (write_order (woff_directory input))

/-- The entries in the order in which `rewrite_table_record` writes their records. -/
def tag_order (input : List byte_t) : List table_directory_entry :=
  (written input).insertionSort (fun a b => compare_tag a b ≤ 0)

/-- Entry `i` of the directory of `input` after `get_max_buffer_size`. -/
def host_entry (input : List byte_t) (i : Nat) : table_directory_entry :=
  host_order (table_directory_entry.of_memory
    ((input.drop 44).take (woff_num_tables input * 20)) (i * 20))

/-! ## Sample worlds and inputs -/

/-- A run-length decoder that stands for the decoder of zlib in the examples: the stream is a
sequence of pairs (count, byte); the empty stream and a stream of odd length are invalid. -/
def rle_inflate : List byte_t → Option (List byte_t)
  | [] => none
  | [_] => none
  | [n, b] => some (List.replicate n.val b)
  | n :: b :: rest => (rle_inflate rest).map (fun t => List.replicate n.val b ++ t)

/-- The world of the examples: `rle_inflate` as decoder, the byte `0xAA` everywhere behind
`record`. -/
def sample_world : World where
  inflate := rle_inflate
  stack := fun _ => 0xAA

/-- A complete WOFF header that declares no table. -/
def woff_no_tables : List byte_t :=
  [119, 79, 70, 70, 0, 1, 0, 0, 0, 0, 0, 0, 0, 0, 0, 0,
   0, 0, 0, 12, 0, 1, 0, 0, 0, 0, 0, 0, 0, 0, 0, 0,
   0, 0, 0, 0, 0, 0, 0, 0, 0, 0, 0, 0]

/-- The first ten bytes of a WOFF header. -/
def woff_short_header : List byte_t :=
  [119, 79, 70, 70, 0, 1, 0, 0, 0, 0]

/-- A WOFF header that declares one table, followed by half a directory entry. -/
def woff_short_directory : List byte_t :=
  [119, 79, 70, 70, 0, 1, 0, 0, 0, 0, 0, 0, 0, 1, 0, 0,
   0, 0, 0, 32, 0, 1, 0, 0, 0, 0, 0, 0, 0, 0, 0, 0,
   0, 0, 0, 0, 0, 0, 0, 0, 0, 0, 0, 0, 104, 101, 97, 100,
   0, 0, 0, 64, 0, 0]

/-- A WOFF file with one table of declared length `0xFFFFFFFF`, stored at the end of the file, and a declared `totalSfntSize` of 28. -/
def woff_wrapped_size : List byte_t :=
  [119, 79, 70, 70, 0, 1, 0, 0, 0, 0, 0, 0, 0, 1, 0, 0,
   0, 0, 0, 28, 0, 1, 0, 0, 0, 0, 0, 0, 0, 0, 0, 0,
   0, 0, 0, 0, 0, 0, 0, 0, 0, 0, 0, 0, 98, 105, 103, 32,
   0, 0, 0, 64, 255, 255, 255, 255, 255, 255, 255, 255, 0, 0, 0, 0]

/-- The two-table scenario of the specification: tags `head` and `glyf`; `head` stored raw in 54 bytes at offset 84, `glyf` compressed from 1000 to 400 bytes at offset 140. -/
def woff_head_glyf : List byte_t :=
  [119, 79, 70, 70, 0, 1, 0, 0, 0, 0, 0, 0, 0, 2, 0, 0,
   0, 0, 4, 76, 0, 1, 0, 0, 0, 0, 0, 0, 0, 0, 0, 0,
   0, 0, 0, 0, 0, 0, 0, 0, 0, 0, 0, 0, 104, 101, 97, 100,
   0, 0, 0, 84, 0, 0, 0, 54, 0, 0, 0, 54, 1, 2, 3, 4,
   103, 108, 121, 102, 0, 0, 0, 140, 0, 0, 1, 144, 0, 0, 3, 232,
   10, 11, 12, 13, 1, 8, 15, 22, 29, 36, 43, 50, 57, 64, 71, 78,
   85, 92, 99, 106, 113, 120, 127, 134, 141, 148, 155, 162, 169, 176, 183, 190,
   197, 204, 211, 218, 225, 232, 239, 246, 253, 4, 11, 18, 25, 32, 39, 46,
   53, 60, 67, 74, 81, 88, 95, 102, 109, 116, 0, 0, 5, 1, 5, 2,
   5, 3, 5, 4, 5, 5, 5, 6, 5, 7, 5, 8, 5, 9, 5, 10,
   5, 11, 5, 12, 5, 13, 5, 14, 5, 15, 5, 16, 5, 17, 5, 18,
   5, 19, 5, 20, 5, 21, 5, 22, 5, 23, 5, 24, 5, 25, 5, 26,
   5, 27, 5, 28, 5, 29, 5, 30, 5, 31, 5, 32, 5, 33, 5, 34,
   5, 35, 5, 36, 5, 37, 5, 38, 5, 39, 5, 40, 5, 41, 5, 42,
   5, 43, 5, 44, 5, 45, 5, 46, 5, 47, 5, 48, 5, 49, 5, 50,
   5, 51, 5, 52, 5, 53, 5, 54, 5, 55, 5, 56, 5, 57, 5, 58,
   5, 59, 5, 60, 5, 61, 5, 62, 5, 63, 5, 64, 5, 65, 5, 66,
   5, 67, 5, 68, 5, 69, 5, 70, 5, 71, 5, 72, 5, 73, 5, 74,
   5, 75, 5, 76, 5, 77, 5, 78, 5, 79, 5, 80, 5, 81, 5, 82,
   5, 83, 5, 84, 5, 85, 5, 86, 5, 87, 5, 88, 5, 89, 5, 90,
   5, 91, 5, 92, 5, 93, 5, 94, 5, 95, 5, 96, 5, 97, 5, 98,
   5, 99, 5, 100, 5, 101, 5, 102, 5, 103, 5, 104, 5, 105, 5, 106,
   5, 107, 5, 108, 5, 109, 5, 110, 5, 111, 5, 112, 5, 113, 5, 114,
   5, 115, 5, 116, 5, 117, 5, 118, 5, 119, 5, 120, 5, 121, 5, 122,
   5, 123, 5, 124, 5, 125, 5, 126, 5, 127, 5, 128, 5, 129, 5, 130,
   5, 131, 5, 132, 5, 133, 5, 134, 5, 135, 5, 136, 5, 137, 5, 138,
   5, 139, 5, 140, 5, 141, 5, 142, 5, 143, 5, 144, 5, 145, 5, 146,
   5, 147, 5, 148, 5, 149, 5, 150, 5, 151, 5, 152, 5, 153, 5, 154,
   5, 155, 5, 156, 5, 157, 5, 158, 5, 159, 5, 160, 5, 161, 5, 162,
   5, 163, 5, 164, 5, 165, 5, 166, 5, 167, 5, 168, 5, 169, 5, 170,
   5, 171, 5, 172, 5, 173, 5, 174, 5, 175, 5, 176, 5, 177, 5, 178,
   5, 179, 5, 180, 5, 181, 5, 182, 5, 183, 5, 184, 5, 185, 5, 186,
   5, 187, 5, 188, 5, 189, 5, 190, 5, 191, 5, 192, 5, 193, 5, 194,
   5, 195, 5, 196, 5, 197, 5, 198, 5, 199, 5, 200]

/-- A WOFF file of two tables stored at the end of the file: `big ` of declared length `0xFFFFFFFF`, then `nil ` of length 0; the declared `totalSfntSize` is 44. -/
def woff_wrapped_pair : List byte_t :=
  [119, 79, 70, 70, 0, 1, 0, 0, 0, 0, 0, 0, 0, 2, 0, 0,
   0, 0, 0, 44, 0, 1, 0, 0, 0, 0, 0, 0, 0, 0, 0, 0,
   0, 0, 0, 0, 0, 0, 0, 0, 0, 0, 0, 0, 98, 105, 103, 32,
   0, 0, 0, 84, 255, 255, 255, 255, 255, 255, 255, 255, 0, 0, 0, 0,
   110, 105, 108, 32, 0, 0, 0, 84, 0, 0, 0, 0, 0, 0, 0, 0,
   0, 0, 0, 0]

/-- The 16 bytes of table record `i` of the output. -/
def record_window (out : List byte_t) (i : Nat) : List byte_t := (out.drop (12 + 16 * i)).take 16

/-- Strict lexicographic order of two byte strings, byte by byte as unsigned values. -/
def bytes_lt : List byte_t → List byte_t → Prop
  | [], [] => False
  | [], _ :: _ => True
  | _ :: _, [] => False
  | a :: s, b :: t => a < b ∨ (a = b ∧ bytes_lt s t)

/-- A WOFF file of two stored tables of 4 bytes: `aaaa` at offset 84, the last four bytes `ABCD` of the file, and `bbbb` at offset 1000, behind the end of the 88-byte file. -/
def woff_truncated_stored : List byte_t :=
  [119, 79, 70, 70, 0, 1, 0, 0, 0, 0, 0, 0, 0, 2, 0, 0,
   0, 0, 0, 52, 0, 1, 0, 0, 0, 0, 0, 0, 0, 0, 0, 0,
   0, 0, 0, 0, 0, 0, 0, 0, 0, 0, 0, 0, 97, 97, 97, 97,
   0, 0, 0, 84, 0, 0, 0, 4, 0, 0, 0, 4, 17, 17, 17, 17,
   98, 98, 98, 98, 0, 0, 3, 232, 0, 0, 0, 4, 0, 0, 0, 4,
   34, 34, 34, 34, 65, 66, 67, 68]

/-- A WOFF file of two compressed tables (2 bytes stored, 4 bytes uncompressed): `aaaa` at offset 84, the last two bytes of the file, and `bbbb` at offset 1000, behind the end of the 86-byte file. -/
def woff_truncated_compressed : List byte_t :=
  [119, 79, 70, 70, 0, 1, 0, 0, 0, 0, 0, 0, 0, 2, 0, 0,
   0, 0, 0, 52, 0, 1, 0, 0, 0, 0, 0, 0, 0, 0, 0, 0,
   0, 0, 0, 0, 0, 0, 0, 0, 0, 0, 0, 0, 97, 97, 97, 97,
   0, 0, 0, 84, 0, 0, 0, 2, 0, 0, 0, 4, 17, 17, 17, 17,
   98, 98, 98, 98, 0, 0, 3, 232, 0, 0, 0, 2, 0, 0, 0, 4,
   34, 34, 34, 34, 4, 65]

/-- A WOFF file of one stored table `cccc` of 8 bytes at offset 64, of which the 67-byte file holds the first three, `XYZ`. -/
def woff_truncated_single : List byte_t :=
  [119, 79, 70, 70, 79, 84, 84, 79, 0, 0, 0, 0, 0, 1, 0, 0,
   0, 0, 0, 36, 0, 1, 0, 0, 0, 0, 0, 0, 0, 0, 0, 0,
   0, 0, 0, 0, 0, 0, 0, 0, 0, 0, 0, 0, 99, 99, 99, 99,
   0, 0, 0, 64, 0, 0, 0, 8, 0, 0, 0, 8, 51, 51, 51, 51,
   88, 89, 90]

/-- A WOFF file of two empty tables: `aaaa` with source offset `0x90000000`, then `bbbb` with source offset `0x10`. -/
def woff_descending_offsets : List byte_t :=
  [119, 79, 70, 70, 0, 1, 0, 0, 0, 0, 0, 0, 0, 2, 0, 0,
   0, 0, 0, 44, 0, 1, 0, 0, 0, 0, 0, 0, 0, 0, 0, 0,
   0, 0, 0, 0, 0, 0, 0, 0, 0, 0, 0, 0, 97, 97, 97, 97,
   144, 0, 0, 0, 0, 0, 0, 0, 0, 0, 0, 0, 0, 0, 0, 0,
   98, 98, 98, 98, 0, 0, 0, 16, 0, 0, 0, 0, 0, 0, 0, 0,
   0, 0, 0, 0]

/-- The member `write_font_type`: the value returned and the line written with `puts`. -/
def write_font_type (woff_file : Option (List byte_t)) : Nat × String :=
  let type := get_font_type woff_file
  if type = OPENTYPE_TRUETYPE then (type, "Font type is OpenType TrueType (.TTF)")
  else if type = OPENTYPE_TRUETYPE_MAC then
    (type, "Font type is OpenType TrueType for Mac (.TTF)")
  else if type = OPENTYPE_CFF then (type, "Font type is OpenType PostScript (.OTF)")
  else (type, "Font type is unknown or font is not a WOFF font")

/-! ## The driver (`woff2ot.cpp`) -/

/-- The files the process can reach: the content of a file that can be opened for reading,
and whether a file can be created. -/
structure FileSystem where
  content : String → Option (List byte_t)
  creatable : String → Bool

/-- What a run of the program leaves behind: the exit status, the lines written to the
standard output, and the bytes of the output file of a conversion. -/
structure Exit where
  status : Nat
  printed : List String
  ot_file : List byte_t
deriving DecidableEq, Repr

def COPYRIGHT_NOTICE : String := "Woff2OT v. 1.0\nCopyright (c) 2000 P.D. Frane Jr.\n"

/-- The function `main`; `argv` are the `argc` argument strings.  (When a buffer access of
the conversion leaves its buffer the values given here say nothing about the run.) -/
def main (w : World) (fs : FileSystem) (argv : List String) : Exit :=
  if argv.length ≠ 3 then
    { status := 1
      printed := [COPYRIGHT_NOTICE,
        "Usage 1: woff2ot input_font_filename.woff output_font_filename.[otf|ttf]\n",
        "Usage 2: woff2ot -type input_font_filename.woff\n",
        "         Use the latter to determine whether the actual font type is ",
        "         an OpenType PostScript (.OTF) or an OpenType TrueType (.TTF) font"]
      ot_file := [] }
  else if (argv.getD 1 "").data.head? = some '-' then
    if (argv.getD 1 "").data.tail = "type".data then
      let (type, line) := write_font_type (fs.content (argv.getD 2 ""))
      { status := if 0 = type then 1 else 0, printed := [line], ot_file := [] }
    else
      { status := 1, printed := ["Unknown switch: " ++ argv.getD 1 ""], ot_file := [] }
  else
    let c := convert w (fs.content (argv.getD 1 "")) (fs.creatable (argv.getD 2 ""))
    if c.result then { status := 0, printed := ["Success"], ot_file := c.ot_file }
    else { status := 1, printed := [c.m_error], ot_file := c.ot_file }

/-- A complete WOFF header whose flavor bytes are `12 34 56 78`. -/
def woff_unknown_flavor : List byte_t :=
  [119, 79, 70, 70, 18, 52, 86, 120, 0, 0, 0, 0, 0, 0, 0, 0,
   0, 0, 0, 12, 0, 1, 0, 0, 0, 0, 0, 0, 0, 0, 0, 0,
   0, 0, 0, 0, 0, 0, 0, 0, 0, 0, 0, 0]

/-- A complete WOFF header whose flavor is `OTTO`. -/
def woff_cff_flavor : List byte_t :=
  [119, 79, 70, 70, 79, 84, 84, 79, 0, 0, 0, 0, 0, 0, 0, 0,
   0, 0, 0, 12, 0, 1, 0, 0, 0, 0, 0, 0, 0, 0, 0, 0,
   0, 0, 0, 0, 0, 0, 0, 0, 0, 0, 0, 0]

/-- A WOFF file of two empty tables whose tags are the bytes `61 00 00 62` and `61 00 00 61`, in this order. -/
def woff_nul_tags : List byte_t :=
  [119, 79, 70, 70, 0, 1, 0, 0, 0, 0, 0, 0, 0, 2, 0, 0,
   0, 0, 0, 44, 0, 1, 0, 0, 0, 0, 0, 0, 0, 0, 0, 0,
   0, 0, 0, 0, 0, 0, 0, 0, 0, 0, 0, 0, 97, 0, 0, 98,
   0, 0, 0, 84, 0, 0, 0, 0, 0, 0, 0, 0, 0, 0, 0, 0,
   97, 0, 0, 97, 0, 0, 0, 84, 0, 0, 0, 0, 0, 0, 0, 0,
   0, 0, 0, 0]

/-- A complete WOFF header that declares two tables, with no directory behind it. -/
def woff_two_tables_no_directory : List byte_t :=
  [119, 79, 70, 70, 0, 1, 0, 0, 0, 0, 0, 0, 0, 2, 0, 0,
   0, 0, 0, 52, 0, 1, 0, 0, 0, 0, 0, 0, 0, 0, 0, 0,
   0, 0, 0, 0, 0, 0, 0, 0, 0, 0, 0, 0]

/-- A WOFF file with one stored table of declared length `0xFFFFFFFC` at the end of the file, and a declared `totalSfntSize` of 24. -/
def woff_buffer_wrap : List byte_t :=
  [119, 79, 70, 70, 0, 1, 0, 0, 0, 0, 0, 0, 0, 1, 0, 0,
   0, 0, 0, 24, 0, 1, 0, 0, 0, 0, 0, 0, 0, 0, 0, 0,
   0, 0, 0, 0, 0, 0, 0, 0, 0, 0, 0, 0, 98, 105, 103, 32,
   0, 0, 0, 64, 255, 255, 255, 252, 255, 255, 255, 252, 0, 0, 0, 0]

/-- A WOFF file of three stored tables whose data the 104-byte file does not hold: `aaaa` at
offset 104 and `bbbb` at offset 108, both of declared length `2^31`, and `cccc` at offset 112 of
declared length 4; the declared `totalSfntSize` is 64. -/
def woff_four_gigabytes : List byte_t :=
  [119, 79, 70, 70, 0, 1, 0, 0, 0, 0, 0, 0, 0, 3, 0, 0,
   0, 0, 0, 64, 0, 1, 0, 0, 0, 0, 0, 0, 0, 0, 0, 0,
   0, 0, 0, 0, 0, 0, 0, 0, 0, 0, 0, 0, 97, 97, 97, 97,
   0, 0, 0, 104, 128, 0, 0, 0, 128, 0, 0, 0, 0, 0, 0, 0,
   98, 98, 98, 98, 0, 0, 0, 108, 128, 0, 0, 0, 128, 0, 0, 0,
   0, 0, 0, 0, 99, 99, 99, 99, 0, 0, 0, 112, 0, 0, 0, 4,
   0, 0, 0, 4, 0, 0, 0, 0]

/-- A WOFF file of two stored tables: the empty table `aaaa` at offset 84, then `bbbb` at offset
88 with the four bytes `DATA`. -/
def woff_empty_table : List byte_t :=
  [119, 79, 70, 70, 0, 1, 0, 0, 0, 0, 0, 0, 0, 2, 0, 0,
   0, 0, 0, 48, 0, 1, 0, 0, 0, 0, 0, 0, 0, 0, 0, 0,
   0, 0, 0, 0, 0, 0, 0, 0, 0, 0, 0, 0, 97, 97, 97, 97,
   0, 0, 0, 84, 0, 0, 0, 0, 0, 0, 0, 0, 0, 0, 0, 0,
   98, 98, 98, 98, 0, 0, 0, 88, 0, 0, 0, 4, 0, 0, 0, 4,
   0, 0, 0, 0, 0, 0, 0, 0, 68, 65, 84, 65]

/-- A WOFF file of two stored tables: `aaaa` at offset 84 with the eight bytes `XXXXXXXX`, then
`bbbb` at offset 92 with the five bytes `YYYYY`. -/
def woff_long_then_short : List byte_t :=
  [119, 79, 70, 70, 0, 1, 0, 0, 0, 0, 0, 0, 0, 2, 0, 0,
   0, 0, 0, 60, 0, 1, 0, 0, 0, 0, 0, 0, 0, 0, 0, 0,
   0, 0, 0, 0, 0, 0, 0, 0, 0, 0, 0, 0, 97, 97, 97, 97,
   0, 0, 0, 84, 0, 0, 0, 8, 0, 0, 0, 8, 0, 0, 0, 0,
   98, 98, 98, 98, 0, 0, 0, 92, 0, 0, 0, 5, 0, 0, 0, 5,
   0, 0, 0, 0, 88, 88, 88, 88, 88, 88, 88, 88, 89, 89, 89, 89,
   89]

/-- The table data `d` written by the loop of `write_tables` for the entries `es`, block by block:
each block has the padded length of its entry and zero bytes from the length of the entry on. -/
def zero_padded_blocks : List table_directory_entry → List byte_t → Prop
  | [], d => d = []
  | e :: es, d =>
    padded e.orig_length ≤ d.length ∧
    (∀ j, e.orig_length ≤ j → j < padded e.orig_length → d[j]? = some 0) ∧
    zero_padded_blocks es (d.drop (padded e.orig_length))

/-! ## Byte order and memory images -/

theorem fin_ofNat_val (x : Nat) : ((Fin.ofNat x : Fin 256)).val = x % 256 := rfl

theorem bswap16_load16 (m : List byte_t) (off : Nat) :
    bswap16 (load16 m off) = read_be16 m off := by
  unfold bswap16 load16 read_be16
  have h0 := (m.getD off 0).isLt
  have h1 := (m.getD (off + 1) 0).isLt
  omega

theorem bswap32_load32 (m : List byte_t) (off : Nat) :
    bswap32 (load32 m off) = read_be32 m off := by
  unfold bswap32 load32 read_be32
  have h0 := (m.getD off 0).isLt
  have h1 := (m.getD (off + 1) 0).isLt
  have h2 := (m.getD (off + 2) 0).isLt
  have h3 := (m.getD (off + 3) 0).isLt
  omega

theorem getD_take (m : List byte_t) (n i : Nat) (h : i < n) :
    (m.take n).getD i 0 = m.getD i 0 := by
  simp [List.getD_eq_getElem?_getD, List.getElem?_take, h]

theorem load16_take (m : List byte_t) (n off : Nat) (h : off + 2 ≤ n) :
    load16 (m.take n) off = load16 m off := by
  unfold load16
  rw [getD_take _ _ _ (by omega), getD_take _ _ _ (by omega)]

theorem load32_take (m : List byte_t) (n off : Nat) (h : off + 4 ≤ n) :
    load32 (m.take n) off = load32 m off := by
  unfold load32
  rw [getD_take _ _ _ (by omega), getD_take _ _ _ (by omega), getD_take _ _ _ (by omega),
    getD_take _ _ _ (by omega)]

theorem take4_drop (m : List byte_t) (off : Nat) (h : off + 4 ≤ m.length) :
    (m.drop off).take 4 =
      [m.getD off 0, m.getD (off + 1) 0, m.getD (off + 2) 0, m.getD (off + 3) 0] := by
  apply List.ext_getElem
  · simp; omega
  · intro i h1 h2
    simp at h1 h2
    have : i = 0 ∨ i = 1 ∨ i = 2 ∨ i = 3 := by omega
    rcases this with h | h | h | h <;> subst h <;> simp [List.getD_eq_getElem?_getD] <;>
      rw [List.getElem?_eq_getElem (by omega)] <;> simp

theorem store32_load32 (m : List byte_t) (off : Nat) (h : off + 4 ≤ m.length) :
    store32 (load32 m off) = (m.drop off).take 4 := by
  rw [take4_drop m off h]
  unfold store32 load32
  have h0 := (m.getD off 0).isLt
  have h1 := (m.getD (off + 1) 0).isLt
  have h2 := (m.getD (off + 2) 0).isLt
  have h3 := (m.getD (off + 3) 0).isLt
  simp only [List.cons.injEq, and_true]
  refine ⟨?_, ?_, ?_, ?_⟩ <;> apply Fin.ext <;> rw [fin_ofNat_val] <;> omega

theorem bswap16_lo (x : Nat) : bswap16 x % 256 = x / 256 % 256 := by
  unfold bswap16; omega

theorem bswap16_hi (x : Nat) : bswap16 x / 256 % 256 = x % 256 := by
  have hq : x / 256 % 256 < 256 := Nat.mod_lt _ (by decide)
  have : bswap16 x / 256 = x % 256 := by
    unfold bswap16
    rw [Nat.mul_comm, Nat.mul_add_div (by decide), Nat.div_eq_of_lt hq, Nat.add_zero]
  rw [this, Nat.mod_mod]

theorem be16_val (x : Nat) :
    256 * ((Fin.ofNat (bswap16 x) : Fin 256)).val + ((Fin.ofNat (bswap16 x / 256) : Fin 256)).val
      = x % 65536 := by
  rw [fin_ofNat_val, fin_ofNat_val, bswap16_lo, bswap16_hi]; omega

/-! ## `max_power_of_2` -/

theorem testBit_top (n k : Nat) (h1 : 2 ^ k ≤ n) (h2 : n < 2 ^ (k + 1)) :
    n.testBit k = true := by
  obtain ⟨x, hx⟩ : ∃ x, n = 2 ^ k + x := ⟨n - 2 ^ k, by omega⟩
  subst hx
  rw [Nat.testBit_two_pow_add_eq, Nat.testBit_lt_two_pow]
  · rfl
  · rw [Nat.pow_succ] at h2; omega

theorem and_pred_of_two_pow (i k : Nat) (h : i + 1 = 2 ^ k) : (i + 1) &&& i = 0 := by
  have hi : i = 2 ^ k - 1 := by omega
  rw [h, hi, Nat.and_pow_two_sub_one_eq_mod, Nat.mod_self]

theorem and_pred_eq_zero_iff (i : Nat) :
    (i + 1) &&& i = 0 ↔ i + 1 = 2 ^ Nat.log2 (i + 1) := by
  have hne : i + 1 ≠ 0 := by omega
  have hle : 2 ^ Nat.log2 (i + 1) ≤ i + 1 := Nat.log2_self_le hne
  have hlt : i + 1 < 2 ^ (Nat.log2 (i + 1) + 1) := Nat.lt_log2_self
  generalize Nat.log2 (i + 1) = k at hle hlt ⊢
  constructor
  · intro h
    by_contra hcon
    have hb : ((i + 1) &&& i).testBit k = true := by
      rw [Nat.testBit_land, testBit_top (i + 1) k hle hlt,
        testBit_top i k (by omega) (by omega)]
      rfl
    rw [h] at hb
    simp at hb
  · exact and_pred_of_two_pow i k

theorem max_power_of_2_eq (n : Nat) (h : 1 ≤ n) : max_power_of_2 n = 2 ^ Nat.log2 n := by
  induction n with
  | zero => omega
  | succ i ih =>
    unfold max_power_of_2
    by_cases hp : (i + 1) &&& i = 0
    · rw [if_pos hp]; exact (and_pred_eq_zero_iff i).1 hp
    · rw [if_neg hp]
      have hne : i + 1 ≠ 2 ^ Nat.log2 (i + 1) := fun h => hp ((and_pred_eq_zero_iff i).2 h)
      have hi : 1 ≤ i := by
        rcases Nat.eq_zero_or_pos i with h0 | h0
        · subst h0; exact absurd (by decide) hp
        · exact h0
      rw [ih hi]
      congr 1
      have hi0 : i ≠ 0 := by omega
      have a1 : 2 ^ Nat.log2 i ≤ i := Nat.log2_self_le hi0
      have a2 : i < 2 ^ (Nat.log2 i + 1) := Nat.lt_log2_self
      have b1 : 2 ^ Nat.log2 (i + 1) ≤ i + 1 := Nat.log2_self_le (by omega)
      have b2 : i + 1 < 2 ^ (Nat.log2 (i + 1) + 1) := Nat.lt_log2_self
      have c1 : Nat.log2 i ≤ Nat.log2 (i + 1) := by
        rw [Nat.le_log2 (by omega)]; omega
      have c2 : Nat.log2 (i + 1) ≤ Nat.log2 i := by
        rw [Nat.le_log2 hi0]; omega
      omega

/-! ## The stages of `convert` -/

theorem memory_at_record_length (w : World) (n : Nat) : (memory_at_record w n).length = n := by
  simp [memory_at_record]

theorem ot_header_memory_length (flavor n : Nat) : (ot_header flavor n).memory.length = 12 := by
  simp [offset_table.memory, store32, store16]

theorem header_fields (input : List byte_t) :
    bswap16 (WOFF_header.of_memory (input.take 44)).m_num_tables = woff_num_tables input ∧
    bswap32 (WOFF_header.of_memory (input.take 44)).m_total_sfnt_size
      = woff_total_sfnt_size input ∧
    (WOFF_header.of_memory (input.take 44)).m_flavor = load32 input 4 := by
  simp only [WOFF_header.of_memory]
  rw [load16_take _ _ _ (by omega), load32_take _ _ _ (by omega), load32_take _ _ _ (by omega),
    bswap16_load16, bswap32_load32]
  exact ⟨rfl, rfl, rfl⟩

theorem streams_after_directory (w : World) (input : List byte_t) :
    Woff2OT.mk (FILE.mk input (44 + woff_num_tables input * 20))
      (fwrite (memory_at_record w (woff_num_tables input * 16))
        (fwrite (ot_header (load32 input 4) (woff_num_tables input)).memory (FILE.mk [] 0)))
      = after_directory w input := by
  have h12 := ot_header_memory_length (load32 input 4) (woff_num_tables input)
  simp only [after_directory, fwrite, List.take_zero, List.length_nil, Nat.sub_self,
    List.replicate_zero, List.nil_append, List.drop_nil, List.append_nil, Nat.zero_add, h12,
    memory_at_record_length]
  rw [List.take_of_length_le (by omega), List.drop_eq_nil_of_le (by omega)]
  simp

theorem convert_short_header (w : World) (input : List byte_t) (hlen : input.length < 44) :
    convert w (some input) true =
      { result := false, m_error := "Error reading the input file", ot_file := [],
        in_bounds := true } := by
  have hshort : ¬ min 44 input.length = 44 := by omega
  simp only [convert, parse_input_file, fread, sizeof_WOFF_header, List.drop_zero,
    List.length_take, ne_eq, hshort, not_false_eq_true, if_true, Bool.true_eq_false, if_false,
    conversion_of]

theorem convert_no_tables (w : World) (input : List byte_t) (hlen : 44 ≤ input.length)
    (hN : woff_num_tables input = 0) :
    convert w (some input) true =
      { result := false, m_error := "No tables found", ot_file := [], in_bounds := true } := by
  obtain ⟨h1, h2, h3⟩ := header_fields input
  simp only [convert, parse_input_file, fread, sizeof_WOFF_header, List.drop_zero,
    List.length_take, Nat.min_eq_left hlen, h1, hN, ne_eq, not_true_eq_false, if_false,
    gt_iff_lt, Nat.lt_irrefl, Bool.true_eq_false, conversion_of]

theorem convert_short_directory (w : World) (input : List byte_t) (hlen : 44 ≤ input.length)
    (hN : 0 < woff_num_tables input) (hdir : input.length < 44 + 20 * woff_num_tables input) :
    convert w (some input) true =
      { result := false, m_error := "Error reading the table directory entries",
        ot_file := (after_directory w input).m_output_file.data, in_bounds := true } := by
  obtain ⟨h1, h2, h3⟩ := header_fields input
  have hshort :
      ¬ min (woff_num_tables input * 20) (input.length - 44) = woff_num_tables input * 20 := by
    omega
  have hs := congrArg (fun s => s.m_output_file.data) (streams_after_directory w input)
  dsimp only at hs
  simp only [convert, parse_input_file, fread, sizeof_WOFF_header, List.drop_zero,
    List.length_take, Nat.min_eq_left hlen, h1, h2, h3, Nat.zero_add, ne_eq, not_true_eq_false,
    if_false, gt_iff_lt, hN, if_true, write_ot_header, write_temp_table_record,
    ftell, sizeof_table_directory_entry, sizeof_table_record,
    List.length_drop, hshort, Bool.true_eq_false, not_false_eq_true, conversion_of, hs]

theorem convert_size_mismatch (w : World) (input : List byte_t)
    (hN : 0 < woff_num_tables input) (hdir : 44 + 20 * woff_num_tables input ≤ input.length)
    (hsz : woff_total_sfnt_size input ≠ computed_sfnt_size input) :
    convert w (some input) true =
      { result := false, m_error := "Invalid \x27totalSfntSize\x27 size",
        ot_file := (after_directory w input).m_output_file.data, in_bounds := true } := by
  obtain ⟨h1, h2, h3⟩ := header_fields input
  have hlen : 44 ≤ input.length := by omega
  have hfull :
      min (woff_num_tables input * 20) (input.length - 44) = woff_num_tables input * 20 := by
    omega
  have hs := congrArg (fun s => s.m_output_file.data) (streams_after_directory w input)
  dsimp only at hs
  unfold computed_sfnt_size woff_directory at hsz
  simp only [convert, parse_input_file, fread, sizeof_WOFF_header, List.drop_zero,
    List.length_take, Nat.min_eq_left hlen, h1, h2, h3, Nat.zero_add, ne_eq, not_true_eq_false,
    if_false, gt_iff_lt, hN, if_true, write_ot_header, write_temp_table_record,
    ftell, sizeof_table_directory_entry, sizeof_table_record,
    List.length_drop, hfull, Bool.true_eq_false, sizeof_offset_table, hsz, not_false_eq_true,
    conversion_of, hs]

theorem convert_transcode (w : World) (input : List byte_t)
    (hN : 0 < woff_num_tables input) (hdir : 44 + 20 * woff_num_tables input ≤ input.length)
    (hsz : woff_total_sfnt_size input = computed_sfnt_size input) :
    convert w (some input) true = conversion_of (transcode w input) := by
  obtain ⟨h1, h2, h3⟩ := header_fields input
  have hlen : 44 ≤ input.length := by omega
  have hfull :
      min (woff_num_tables input * 20) (input.length - 44) = woff_num_tables input * 20 := by
    omega
  have hs := streams_after_directory w input
  have hpos : (fwrite (ot_header (load32 input 4) (woff_num_tables input)).memory
      (FILE.mk [] 0)).pos = 12 := by
    simp [fwrite, ot_header_memory_length]
  unfold computed_sfnt_size woff_directory at hsz
  unfold transcode woff_directory
  simp only [convert, parse_input_file, fread, sizeof_WOFF_header, List.drop_zero,
    List.length_take, Nat.min_eq_left hlen, h1, h2, h3, Nat.zero_add, ne_eq, not_true_eq_false,
    if_false, gt_iff_lt, hN, if_true, write_ot_header, write_temp_table_record,
    ftell, sizeof_table_directory_entry, sizeof_table_record,
    List.length_drop, hfull, Bool.true_eq_false, sizeof_offset_table, hsz, hs, hpos]

/-! ## `write_tables` and `rewrite_table_record` -/

theorem first_bytes_some (buffer block : List byte_t) (n : Nat)
    (h : first_bytes buffer n = some block) : block = buffer.take n ∧ n ≤ buffer.length := by
  unfold first_bytes at h
  split at h
  · simp at h; exact ⟨h.symm, by assumption⟩
  · simp at h

theorem write_tables_body_ok (w : World) (bs : Nat) (e e' : table_directory_entry)
    (b1 b2 b1' b2' : List byte_t) (s s' : Woff2OT)
    (h : write_tables_body w bs e b1 b2 s = (.ok (e', b1', b2'), s')) :
    e' = recorded_entry (s.m_output_file.pos) e ∧
    padded e.orig_length ≤ b1'.length ∧
    s'.m_output_file = fwrite (b1'.take (padded e.orig_length)) s.m_output_file := by
  unfold write_tables_body at h
  simp only [] at h
  split at h
  · split at h
    · simp at h
    · split at h
      · simp at h
      · split at h
        · simp at h
        · split at h
          · simp at h
          · split at h
            · simp at h
            · split at h
              · simp at h
              · rename_i hdl _ _ _ _ block hfb
                simp only [Prod.mk.injEq, Except.ok.injEq] at h
                obtain ⟨⟨he, hb1, _⟩, hs⟩ := h
                simp only [ne_eq, not_not] at hdl
                rw [hdl] at hfb he
                obtain ⟨hblock, hle⟩ := first_bytes_some _ _ _ hfb
                subst hb1 hs he hblock
                exact ⟨rfl, hle, rfl⟩
  · split at h
    · simp at h
    · split at h
      · simp at h
      · split at h
        · simp at h
        · rename_i block hfb
          simp only [Prod.mk.injEq, Except.ok.injEq] at h
          obtain ⟨⟨he, hb1, _⟩, hs⟩ := h
          obtain ⟨hblock, hle⟩ := first_bytes_some _ _ _ hfb
          subst hb1 hs he hblock
          exact ⟨rfl, hle, rfl⟩

theorem write_tables_loop_ok (w : World) (bs : Nat) (es : List table_directory_entry) :
    ∀ (b1 b2 : List byte_t) (s s' : Woff2OT) (es' : List table_directory_entry),
    s.m_output_file.pos = s.m_output_file.data.length →
    write_tables_loop w bs es b1 b2 s = (.ok es', s') →
    es' = recorded s.m_output_file.pos es ∧
    s'.m_output_file.pos = s'.m_output_file.data.length ∧
    s'.m_output_file.pos = s.m_output_file.pos + (es.map (fun e => padded e.orig_length)).sum ∧
    s'.m_output_file.data.take s.m_output_file.pos = s.m_output_file.data := by
  induction es with
  | nil =>
    intro b1 b2 s s' es' hpos h
    simp only [write_tables_loop, Prod.mk.injEq, Except.ok.injEq] at h
    obtain ⟨h1, h2⟩ := h
    subst h1 h2
    simp [recorded, hpos]
  | cons e rest ih =>
    intro b1 b2 s s' es' hpos h
    unfold write_tables_loop at h
    split at h
    · simp at h
    · rename_i e1 b1' b2' s1 hbody
      obtain ⟨he1, hle, hs1⟩ := write_tables_body_ok w bs e e1 b1 b2 b1' b2' s s1 hbody
      have hlen : (b1'.take (padded e.orig_length)).length = padded e.orig_length := by
        simp [List.length_take, Nat.min_eq_left hle]
      have hs1pos : s1.m_output_file.pos = s1.m_output_file.data.length := by
        rw [hs1]; simp [fwrite, hpos]
      have hs1p : s1.m_output_file.pos = s.m_output_file.pos + padded e.orig_length := by
        rw [hs1]; simp [fwrite, hlen]
      have hs1d : s1.m_output_file.data =
          s.m_output_file.data ++ b1'.take (padded e.orig_length) := by
        rw [hs1]; simp [fwrite, hpos]
      split at h
      · simp at h
      · rename_i rest' s2 hloop
        simp only [Prod.mk.injEq, Except.ok.injEq] at h
        obtain ⟨h1, h2⟩ := h
        subst h1 h2
        obtain ⟨i1, i2, i3, i4⟩ := ih b1' b2' s1 s2 rest' hs1pos hloop
        refine ⟨?_, i2, ?_, ?_⟩
        · rw [i1, he1, hs1p]; rfl
        · rw [i3, hs1p]; simp [Nat.add_assoc]
        · have := congrArg (List.take s.m_output_file.pos) i4
          rw [List.take_take, hs1p, Nat.min_eq_left (Nat.le_add_right _ _)] at this
          rw [this, hs1d, hpos]; simp

theorem write_tables_eq (w : World) (tbl : List table_directory_entry) (s : Woff2OT) :
    write_tables w tbl tbl.length s =
      write_tables_loop w (scratch_size tbl) (write_order tbl)
        (List.replicate (scratch_size tbl) 0) (List.replicate (scratch_size tbl) 0) s := by
  have e2 : (tbl.map host_order).take tbl.length = tbl.map host_order :=
    List.take_of_length_le (by simp)
  have e3 : (tbl.map host_order).drop tbl.length = [] :=
    List.drop_eq_nil_of_le (by simp)
  have hlen : (List.insertionSort (fun a b => compare_offset a b ≤ 0)
      (List.map host_order tbl)).length = tbl.length := by
    rw [List.length_insertionSort, List.length_map]
  simp only [write_tables, get_max_buffer_size, qsort, List.take_length, List.drop_length,
    List.append_nil, scratch_size, write_order, e2, e3]
  rw [List.take_of_length_le (Nat.le_of_eq hlen)]

theorem woff_directory_length (input : List byte_t) :
    (woff_directory input).length = woff_num_tables input := by
  simp [woff_directory, directory_of_memory]

theorem record_memory_length (r : table_record) : r.memory.length = 16 := by
  simp [table_record.memory, store32]

theorem fwrite_inside (buf pre old post : List byte_t) (f : FILE)
    (hd : f.data = pre ++ old ++ post) (hp : f.pos = pre.length) (ho : old.length = buf.length) :
    fwrite buf f = { data := pre ++ buf ++ post, pos := pre.length + buf.length } := by
  have h1 : f.data.take f.pos = pre := by
    rw [hd, hp, List.append_assoc, List.take_left]
  have h2 : f.data.drop (f.pos + buf.length) = post := by
    rw [hd, hp, ← ho, ← List.length_append, List.drop_left]
  have h3 : f.pos - f.data.length = 0 := by
    rw [hd, hp]; simp
  unfold fwrite
  rw [h1, h2, h3, hp]
  simp

theorem rewrite_loop_data (es : List table_directory_entry) :
    ∀ (s : Woff2OT) (pre mid post : List byte_t),
    s.m_output_file.data = pre ++ mid ++ post → s.m_output_file.pos = pre.length →
    mid.length = 16 * es.length →
    (es.foldl (fun s entry =>
        { s with m_output_file := fwrite (record_of_entry entry).memory s.m_output_file }) s
      ).m_output_file.data =
      pre ++ (es.map (fun e => (record_of_entry e).memory)).flatten ++ post := by
  induction es with
  | nil =>
    intro s pre mid post hd _ hm
    have : mid = [] := List.eq_nil_of_length_eq_zero (by simpa using hm)
    subst this
    simpa using hd
  | cons e rest ih =>
    intro s pre mid post hd hp hm
    simp only [List.length_cons] at hm
    simp only [List.foldl_cons, List.map_cons, List.flatten_cons]
    have hr := record_memory_length (record_of_entry e)
    have hw := fwrite_inside (record_of_entry e).memory pre (mid.take 16) (mid.drop 16 ++ post)
      s.m_output_file (by rw [hd]; simp [List.append_assoc, ← List.append_assoc (mid.take 16)])
      hp (by rw [List.length_take, hr]; omega)
    rw [ih _ (pre ++ (record_of_entry e).memory) (mid.drop 16) post]
    · simp [List.append_assoc]
    · rw [hw]; simp [List.append_assoc]
    · rw [hw]; simp
    · rw [List.length_drop]; omega

theorem rewrite_table_record_data (tbl : List table_directory_entry) (s : Woff2OT)
    (pre mid post : List byte_t) (hd : s.m_output_file.data = pre ++ mid ++ post)
    (hm : mid.length = 16 * tbl.length) :
    (rewrite_table_record pre.length tbl tbl.length s).m_output_file.data =
      pre ++ ((tbl.insertionSort (fun a b => compare_tag a b ≤ 0)).map
        (fun e => (record_of_entry e).memory)).flatten ++ post := by
  unfold rewrite_table_record qsort
  simp only [List.take_length, List.drop_length, List.append_nil]
  rw [List.take_of_length_le (by rw [List.length_insertionSort])]
  exact rewrite_loop_data _ _ pre mid post hd rfl (by rw [List.length_insertionSort]; exact hm)

theorem recorded_length (es : List table_directory_entry) :
    ∀ pos, (recorded pos es).length = es.length := by
  induction es with
  | nil => intro pos; rfl
  | cons e rest ih => intro pos; simp [recorded, ih]

theorem write_order_length (tbl : List table_directory_entry) :
    (write_order tbl).length = tbl.length := by
  simp [write_order, List.length_insertionSort]

theorem written_length (input : List byte_t) : (written input).length = woff_num_tables input := by
  simp [written, recorded_length, write_order_length, woff_directory_length]

theorem conversion_of_result (r : Except Thrown Unit × Woff2OT)
    (h : (conversion_of r).result = true) :
    ∃ s, r = (.ok (), s) ∧ conversion_of r =
      { result := true, m_error := "", ot_file := s.m_output_file.data, in_bounds := true } := by
  obtain ⟨r1, s⟩ := r
  cases r1 with
  | ok u => exact ⟨s, rfl, rfl⟩
  | error e => cases e <;> simp [conversion_of] at h

theorem convert_success (w : World) (input : List byte_t)
    (h : (convert w (some input) true).result = true) :
    0 < woff_num_tables input ∧ 44 + 20 * woff_num_tables input ≤ input.length ∧
    woff_total_sfnt_size input = computed_sfnt_size input ∧
    ∃ s, write_tables w (woff_directory input) (woff_num_tables input) (after_directory w input)
        = (.ok (written input), s) ∧
      s.m_output_file.data.length = 12 + woff_num_tables input * 16 +
        ((write_order (woff_directory input)).map (fun e => padded e.orig_length)).sum ∧
      s.m_output_file.data.take (12 + woff_num_tables input * 16)
        = (after_directory w input).m_output_file.data ∧
      convert w (some input) true =
        { result := true, m_error := "",
          ot_file := (ot_header (load32 input 4) (woff_num_tables input)).memory ++
            ((tag_order input).map (fun e => (record_of_entry e).memory)).flatten ++
            s.m_output_file.data.drop (12 + woff_num_tables input * 16),
          in_bounds := true } := by
  by_cases hlen : input.length < 44
  · rw [convert_short_header w input hlen] at h; simp at h
  have hlen : 44 ≤ input.length := by omega
  by_cases hN : woff_num_tables input = 0
  · rw [convert_no_tables w input hlen hN] at h; simp at h
  have hN : 0 < woff_num_tables input := by omega
  by_cases hdir : input.length < 44 + 20 * woff_num_tables input
  · rw [convert_short_directory w input hlen hN hdir] at h; simp at h
  have hdir : 44 + 20 * woff_num_tables input ≤ input.length := by omega
  by_cases hsz : woff_total_sfnt_size input = computed_sfnt_size input
  swap
  · rw [convert_size_mismatch w input hN hdir hsz] at h; simp at h
  refine ⟨hN, hdir, hsz, ?_⟩
  rw [convert_transcode w input hN hdir hsz] at h ⊢
  obtain ⟨s, hs, hc⟩ := conversion_of_result _ h
  rw [hc]
  unfold transcode at hs
  split at hs
  · simp at hs
  · rename_i tbl s1 hwt
    simp only [Prod.mk.injEq, true_and] at hs
    have hwt2 := hwt
    rw [← woff_directory_length input, write_tables_eq] at hwt2
    have hpos0 : (after_directory w input).m_output_file.pos
        = (after_directory w input).m_output_file.data.length := by
      simp [after_directory, ot_header_memory_length, memory_at_record_length]
    obtain ⟨i1, i2, i3, i4⟩ := write_tables_loop_ok w _ _ _ _ _ _ _ hpos0 hwt2
    have hp : (after_directory w input).m_output_file.pos = 12 + woff_num_tables input * 16 := rfl
    rw [hp] at i1 i3 i4
    have htbl : tbl = written input := i1
    subst htbl
    refine ⟨s1, hwt, ?_, i4, ?_⟩
    · rw [← i2, i3]
    · have hdata : s1.m_output_file.data =
          (ot_header (load32 input 4) (woff_num_tables input)).memory ++
            memory_at_record w (woff_num_tables input * 16) ++
            s1.m_output_file.data.drop (12 + woff_num_tables input * 16) := by
        conv_lhs => rw [← List.take_append_drop (12 + woff_num_tables input * 16)
          s1.m_output_file.data, i4]
        rfl
      have hr := rewrite_table_record_data (written input) s1 _ _ _ hdata
        (by rw [memory_at_record_length, written_length]; omega)
      rw [ot_header_memory_length, written_length] at hr
      rw [← hs, hr]
      rfl

/-! ## The size check -/

theorem land_mask (y : Nat) : y &&& 0xFFFFFFFC = (y / 4 * 4) % 4294967296 := by
  apply Nat.eq_of_testBit_eq
  intro i
  have hM : (0xFFFFFFFC : Nat) = 2 ^ 2 * (2 ^ 30 - 1) := by decide
  have h4 : y / 4 * 4 = 2 ^ 2 * (y >>> 2) := by
    rw [Nat.shiftRight_eq_div_pow]; omega
  rw [Nat.testBit_land, hM, show (4294967296 : Nat) = 2 ^ 32 by decide, Nat.testBit_mod_two_pow,
    h4, Nat.testBit_mul_pow_two, Nat.testBit_mul_pow_two, Nat.testBit_two_pow_sub_one,
    Nat.testBit_shiftRight]
  by_cases h2 : i ≥ 2
  · have e : 2 + (i - 2) = i := by omega
    rw [e]
    by_cases h32 : i < 32
    · have : i - 2 < 30 := by omega
      simp [h2, h32, this]
    · have : ¬ i - 2 < 30 := by omega
      simp [h2, h32, this]
  · simp [h2]

theorem padded_eq (x : Nat) : padded x = pad4 x % 4294967296 := by
  unfold padded pad4
  exact land_mask (x + 3)

theorem getD_drop (m : List byte_t) (a i : Nat) : (m.drop a).getD i 0 = m.getD (a + i) 0 := by
  simp [List.getD_eq_getElem?_getD, List.getElem?_drop]

theorem read_be32_window (input : List byte_t) (a n off : Nat) (h : off + 4 ≤ n) :
    read_be32 ((input.drop a).take n) off = read_be32 input (a + off) := by
  unfold read_be32
  rw [getD_take _ _ _ (by omega), getD_take _ _ _ (by omega), getD_take _ _ _ (by omega),
    getD_take _ _ _ (by omega), getD_drop, getD_drop, getD_drop, getD_drop]
  simp only [Nat.add_assoc]

theorem store32_load32_window (input : List byte_t) (a n off : Nat) (h : off + 4 ≤ n)
    (hlen : a + n ≤ input.length) :
    store32 (load32 ((input.drop a).take n) off) = (input.drop (a + off)).take 4 := by
  rw [store32_load32 _ _ (by rw [List.length_take, List.length_drop]; omega)]
  rw [take4_drop _ _ (by rw [List.length_take, List.length_drop]; omega),
    take4_drop _ _ (by omega)]
  rw [getD_take _ _ _ (by omega), getD_take _ _ _ (by omega), getD_take _ _ _ (by omega),
    getD_take _ _ _ (by omega), getD_drop, getD_drop, getD_drop, getD_drop]
  simp only [Nat.add_assoc]

theorem woff_directory_host (input : List byte_t) :
    (woff_directory input).map host_order =
      (List.range (woff_num_tables input)).map (host_entry input) := by
  simp [woff_directory, directory_of_memory, host_entry, sizeof_table_directory_entry,
    Function.comp_def]

theorem host_entry_fields (input : List byte_t) (i : Nat) (hi : i < woff_num_tables input)
    (hdir : 44 + 20 * woff_num_tables input ≤ input.length) :
    (host_entry input i).offset = woff_offset input i ∧
    (host_entry input i).comp_length = woff_comp_length input i ∧
    (host_entry input i).orig_length = woff_orig_length input i ∧
    store32 (host_entry input i).tag = woff_tag input i ∧
    store32 (host_entry input i).orig_checksum = woff_checksum input i := by
  simp only [host_entry, host_order, table_directory_entry.of_memory, bswap32_load32,
    woff_offset, woff_comp_length, woff_orig_length, woff_tag, woff_checksum]
  have hw : ∀ k, k + 4 ≤ 20 → i * 20 + k + 4 ≤ woff_num_tables input * 20 := by
    intro k hk
    have : (i + 1) * 20 ≤ woff_num_tables input * 20 := Nat.mul_le_mul_right 20 hi
    omega
  refine ⟨?_, ?_, ?_, ?_, ?_⟩
  · rw [read_be32_window _ _ _ _ (hw 4 (by omega))]; congr 1; omega
  · rw [read_be32_window _ _ _ _ (hw 8 (by omega))]; congr 1; omega
  · rw [read_be32_window _ _ _ _ (hw 12 (by omega))]; congr 1; omega
  · rw [store32_load32_window _ _ _ _ (hw 0 (by omega)) (by omega)]; congr 2; omega
  · rw [store32_load32_window _ _ _ _ (hw 16 (by omega)) (by omega)]; congr 2; omega

theorem foldl_add_mod {α : Type} (f : α → Nat) (M : Nat) (l : List α) :
    ∀ a, a < M → l.foldl (fun t e => (t + f e) % M) a = (a + (l.map f).sum) % M := by
  induction l with
  | nil => intro a ha; simp [Nat.mod_eq_of_lt ha]
  | cons e rest ih =>
    intro a ha
    have hM : 0 < M := by omega
    simp only [List.foldl_cons, List.map_cons, List.sum_cons]
    rw [ih _ (Nat.mod_lt _ hM), Nat.mod_add_mod, Nat.add_assoc]

theorem sum_mod_mod {α : Type} (f : α → Nat) (M : Nat) (l : List α) :
    ((l.map (fun e => f e % M)).sum) % M = ((l.map f).sum) % M := by
  induction l with
  | nil => rfl
  | cons e rest ih =>
    simp only [List.map_cons, List.sum_cons]
    rw [Nat.add_mod, ih, Nat.mod_mod, ← Nat.add_mod]

theorem compute_table_sizes_eq (tbl : List table_directory_entry) :
    compute_table_sizes tbl tbl.length =
      ((tbl.map (fun e => pad4 (host_order e).orig_length)).sum) % 4294967296 := by
  unfold compute_table_sizes
  rw [List.take_length]
  have hf : (fun total_size (e : table_directory_entry) =>
      (total_size + (((bswap32 e.orig_length + 3) % 4294967296) &&& 0xFFFFFFFC)) % 4294967296)
      = (fun t e => (t + (pad4 (host_order e).orig_length % 4294967296)) % 4294967296) := by
    funext t e
    rw [land_mask, ← padded_eq]
    unfold padded
    rw [land_mask]
    simp only [host_order]
    congr 2
    omega
  simp only [] at hf ⊢
  rw [hf, foldl_add_mod (fun e => pad4 (host_order e).orig_length % 4294967296) _ _ _ (by decide),
    Nat.zero_add, sum_mod_mod]

theorem computed_sfnt_size_eq (input : List byte_t)
    (hdir : 44 + 20 * woff_num_tables input ≤ input.length) :
    computed_sfnt_size input =
      (12 + 16 * woff_num_tables input +
        ((List.range (woff_num_tables input)).map
          (fun i => pad4 (woff_orig_length input i))).sum) % 4294967296 := by
  unfold computed_sfnt_size
  have h := compute_table_sizes_eq (woff_directory input)
  rw [woff_directory_length] at h
  rw [h]
  have e : (woff_directory input).map (fun e => pad4 (host_order e).orig_length)
      = (List.range (woff_num_tables input)).map (fun i => pad4 (woff_orig_length input i)) := by
    have := congrArg (List.map (fun e => pad4 e.orig_length)) (woff_directory_host input)
    rw [List.map_map, List.map_map] at this
    rw [show (fun e => pad4 (host_order e).orig_length)
      = (fun e => pad4 e.orig_length) ∘ host_order from rfl, this]
    apply List.map_congr_left
    intro i hi
    rw [List.mem_range] at hi
    simp only [Function.comp]
    rw [(host_entry_fields input i hi hdir).2.2.1]
  rw [e]
  omega

theorem write_tables_body_error (w : World) (bs : Nat) (e : table_directory_entry)
    (b1 b2 : List byte_t) (s s' : Woff2OT) (t : Thrown)
    (h : write_tables_body w bs e b1 b2 s = (.error t, s')) :
    (t = .out_of_bounds ∨ t = .runtime_error "Error decompressing the table" ∨
      t = .runtime_error "Decompressed length does not match the original length") ∧
    s'.m_output_file = s.m_output_file := by
  unfold write_tables_body at h
  simp only [] at h
  repeat' split at h
  all_goals
    simp only [Prod.mk.injEq, Except.error.injEq, reduceCtorEq, false_and] at h
  all_goals
    obtain ⟨ht, hs⟩ := h
    subst ht hs
    simp

theorem write_tables_loop_error (w : World) (bs : Nat) (es : List table_directory_entry) :
    ∀ (b1 b2 : List byte_t) (s s' : Woff2OT) (t : Thrown),
    write_tables_loop w bs es b1 b2 s = (.error t, s') →
    t = .out_of_bounds ∨ t = .runtime_error "Error decompressing the table" ∨
      t = .runtime_error "Decompressed length does not match the original length" := by
  induction es with
  | nil => intro b1 b2 s s' t h; simp [write_tables_loop] at h
  | cons e rest ih =>
    intro b1 b2 s s' t h
    unfold write_tables_loop at h
    split at h
    · rename_i t1 s1 hbody
      simp only [Prod.mk.injEq, Except.error.injEq] at h
      rw [← h.1]
      exact (write_tables_body_error w bs e b1 b2 s s1 t1 hbody).1
    · split at h
      · rename_i t2 s2 hloop
        simp only [Prod.mk.injEq, Except.error.injEq] at h
        rw [← h.1]
        exact ih _ _ _ _ _ hloop
      · simp at h

theorem transcode_m_error (w : World) (input : List byte_t) :
    (conversion_of (transcode w input)).m_error = "" ∨
    (conversion_of (transcode w input)).m_error = "Error decompressing the table" ∨
    (conversion_of (transcode w input)).m_error
      = "Decompressed length does not match the original length" := by
  unfold transcode
  split
  · rename_i t s hwt
    rw [← woff_directory_length input, write_tables_eq] at hwt
    rcases write_tables_loop_error _ _ _ _ _ _ _ _ hwt with h | h | h <;> subst h <;>
      simp [conversion_of]
  · simp [conversion_of]

/-! ## The claims -/

/-- C2 (amended): for every input with a complete header, a table count `N >= 1` and a complete
`N`-entry directory, `convert` fails with "Invalid 'totalSfntSize' size" exactly when the
declared `totalSfntSize` differs from `12 + 16*N + sum of pad4(orig_length)` reduced modulo
`2^32`; when they are equal the conversion goes on to the transcoding (`write_tables`, then
`rewrite_table_record`). -/
theorem C2_size_check_modulo (w : World) (input : List byte_t)
    (hN : 1 ≤ woff_num_tables input)
    (hdir : 44 + 20 * woff_num_tables input ≤ input.length) :
    (((convert w (some input) true).result = false ∧
        (convert w (some input) true).m_error = "Invalid \x27totalSfntSize\x27 size") ↔
      woff_total_sfnt_size input ≠
        (12 + 16 * woff_num_tables input +
          ((List.range (woff_num_tables input)).map
            (fun i => pad4 (woff_orig_length input i))).sum) % 4294967296) ∧
    (woff_total_sfnt_size input =
        (12 + 16 * woff_num_tables input +
          ((List.range (woff_num_tables input)).map
            (fun i => pad4 (woff_orig_length input i))).sum) % 4294967296 →
      convert w (some input) true = conversion_of (transcode w input)) := by
  rw [← computed_sfnt_size_eq input hdir]
  refine ⟨⟨?_, ?_⟩, ?_⟩
  · rintro ⟨_, hm⟩ heq
    rw [convert_transcode w input hN hdir heq] at hm
    rcases transcode_m_error w input with h | h | h <;> rw [h] at hm <;>
      exact absurd hm (by decide)
  · intro hne
    rw [convert_size_mismatch w input hN hdir hne]
    exact ⟨rfl, rfl⟩
  · exact convert_transcode w input hN hdir

/-- C2, witness: the one-table file `woff_wrapped_size`, whose header and directory are
complete. -/
theorem C2_size_check_modulo_witness :
    (((convert sample_world (some woff_wrapped_size) true).result = false ∧
        (convert sample_world (some woff_wrapped_size) true).m_error
          = "Invalid \x27totalSfntSize\x27 size") ↔
      woff_total_sfnt_size woff_wrapped_size ≠
        (12 + 16 * woff_num_tables woff_wrapped_size +
          ((List.range (woff_num_tables woff_wrapped_size)).map
            (fun i => pad4 (woff_orig_length woff_wrapped_size i))).sum) % 4294967296) ∧
    (woff_total_sfnt_size woff_wrapped_size =
        (12 + 16 * woff_num_tables woff_wrapped_size +
          ((List.range (woff_num_tables woff_wrapped_size)).map
            (fun i => pad4 (woff_orig_length woff_wrapped_size i))).sum) % 4294967296 →
      convert sample_world (some woff_wrapped_size) true
        = conversion_of (transcode sample_world woff_wrapped_size)) :=
  C2_size_check_modulo sample_world woff_wrapped_size (by decide) (by decide)

/-- C2, counterexample to the claim as stated (sum taken over the integers): the file
`woff_wrapped_size` has a complete header and directory with `N = 1`, its declared
`totalSfntSize` 28 differs from `12 + 16 + pad4(0xFFFFFFFF)`, and `convert` does not fail with
"Invalid 'totalSfntSize' size". -/
theorem C2_counterexample :
    1 ≤ woff_num_tables woff_wrapped_size ∧
    44 + 20 * woff_num_tables woff_wrapped_size ≤ woff_wrapped_size.length ∧
    woff_total_sfnt_size woff_wrapped_size ≠
      12 + 16 * woff_num_tables woff_wrapped_size +
        ((List.range (woff_num_tables woff_wrapped_size)).map
          (fun i => pad4 (woff_orig_length woff_wrapped_size i))).sum ∧
    (convert sample_world (some woff_wrapped_size) true).m_error
      ≠ "Invalid \x27totalSfntSize\x27 size" := by
  decide

/-- C5 (amended): for every table count `N` with `1 <= N <= 65535` and every flavor, the
12 bytes written by `write_ot_header` are the 4 flavor bytes of the input unchanged, followed
by four big-endian 16-bit fields: `numTables = N`, `searchRange = 16*P mod 2^16`,
`entrySelector = log2(P)`, `rangeShift = (16*N - 16*P) mod 2^16`, where `P = 2^k` is the
largest power of two that is `<= N`. -/
theorem C5_ot_header_fields (m : List byte_t) (N : Nat) (f : FILE) (hm : 8 ≤ m.length)
    (h1 : 1 ≤ N) (h2 : N ≤ 65535) :
    ∃ k, 2 ^ k ≤ N ∧ N < 2 * 2 ^ k ∧
      (write_ot_header (load32 m 4) N
        { m_input_file := f, m_output_file := { data := [], pos := 0 } }).m_output_file.data.length
        = 12 ∧
      (write_ot_header (load32 m 4) N
        { m_input_file := f, m_output_file := { data := [], pos := 0 } }).m_output_file.data.take 4
        = (m.drop 4).take 4 ∧
      read_be16 (write_ot_header (load32 m 4) N
        { m_input_file := f, m_output_file := { data := [], pos := 0 } }).m_output_file.data 4
        = N ∧
      read_be16 (write_ot_header (load32 m 4) N
        { m_input_file := f, m_output_file := { data := [], pos := 0 } }).m_output_file.data 6
        = (16 * 2 ^ k) % 65536 ∧
      read_be16 (write_ot_header (load32 m 4) N
        { m_input_file := f, m_output_file := { data := [], pos := 0 } }).m_output_file.data 8
        = k ∧
      read_be16 (write_ot_header (load32 m 4) N
        { m_input_file := f, m_output_file := { data := [], pos := 0 } }).m_output_file.data 10
        = (16 * N - 16 * 2 ^ k) % 65536 := by
  refine ⟨Nat.log2 N, Nat.log2_self_le (by omega), ?_, ?_⟩
  · have := @Nat.lt_log2_self N
    rw [Nat.pow_succ] at this; omega
  have hk : Nat.log2 N < 16 := by
    rw [Nat.log2_lt (by omega)]; omega
  have hP := max_power_of_2_eq N h1
  have hPle : 2 ^ Nat.log2 N ≤ N := Nat.log2_self_le (by omega)
  simp only [write_ot_header, fwrite, ot_header, offset_table.memory, hP, log2, Nat.log2_two_pow]
  generalize Nat.log2 N = k at *
  generalize 2 ^ k = P at *
  have e := store32_load32 m 4 hm
  simp only [List.take_zero, List.length_nil, Nat.sub_self, List.replicate_zero, List.nil_append,
    List.drop_nil, List.append_nil]
  refine ⟨by simp [store32, store16], ?_, ?_, ?_, ?_, ?_⟩
  · rw [← e]; simp [store32, store16]
  all_goals
    simp only [read_be16, store32, store16, List.cons_append, List.nil_append,
      List.getD_cons_succ, List.getD_cons_zero]
    rw [be16_val]
    omega

/-- C5, witness: the header written for the two tables of a file whose first eight bytes are
those of `woff_no_tables`. -/
theorem C5_ot_header_fields_witness :
    ∃ k, 2 ^ k ≤ 2 ∧ 2 < 2 * 2 ^ k ∧
      (write_ot_header (load32 woff_no_tables 4) 2
        { m_input_file := { data := woff_no_tables, pos := 44 },
          m_output_file := { data := [], pos := 0 } }).m_output_file.data.length = 12 ∧
      (write_ot_header (load32 woff_no_tables 4) 2
        { m_input_file := { data := woff_no_tables, pos := 44 },
          m_output_file := { data := [], pos := 0 } }).m_output_file.data.take 4
        = (woff_no_tables.drop 4).take 4 ∧
      read_be16 (write_ot_header (load32 woff_no_tables 4) 2
        { m_input_file := { data := woff_no_tables, pos := 44 },
          m_output_file := { data := [], pos := 0 } }).m_output_file.data 4 = 2 ∧
      read_be16 (write_ot_header (load32 woff_no_tables 4) 2
        { m_input_file := { data := woff_no_tables, pos := 44 },
          m_output_file := { data := [], pos := 0 } }).m_output_file.data 6
        = (16 * 2 ^ k) % 65536 ∧
      read_be16 (write_ot_header (load32 woff_no_tables 4) 2
        { m_input_file := { data := woff_no_tables, pos := 44 },
          m_output_file := { data := [], pos := 0 } }).m_output_file.data 8 = k ∧
      read_be16 (write_ot_header (load32 woff_no_tables 4) 2
        { m_input_file := { data := woff_no_tables, pos := 44 },
          m_output_file := { data := [], pos := 0 } }).m_output_file.data 10
        = (16 * 2 - 16 * 2 ^ k) % 65536 :=
  C5_ot_header_fields woff_no_tables 2 { data := woff_no_tables, pos := 44 } (by decide)
    (by decide) (by decide)

/-- C5, counterexample to the claim as stated: for `N = 4096` the largest power of two that
is `<= N` is `P = 2^12`, and the `searchRange` field written by `write_ot_header` is not
`16*P`. -/
theorem C5_counterexample :
    1 ≤ 4096 ∧ 4096 ≤ 65535 ∧ 2 ^ 12 ≤ 4096 ∧ 4096 < 2 * 2 ^ 12 ∧
    read_be16 (write_ot_header (load32 woff_no_tables 4) 4096
      { m_input_file := { data := woff_no_tables, pos := 44 },
        m_output_file := { data := [], pos := 0 } }).m_output_file.data 6 ≠ 16 * 2 ^ 12 := by
  decide

/-- C7: for every input with a complete 44-byte header whose table count field is 0,
`convert` fails with the message "No tables found" and no byte is written to the output
file. -/
theorem C7_no_tables (w : World) (input : List byte_t) (hlen : 44 ≤ input.length)
    (hN : woff_num_tables input = 0) :
    (convert w (some input) true).result = false ∧
    (convert w (some input) true).m_error = "No tables found" ∧
    (convert w (some input) true).ot_file = [] := by
  rw [convert_no_tables w input hlen hN]
  exact ⟨rfl, rfl, rfl⟩

/-- C7, witness: the header `woff_no_tables`. -/
theorem C7_no_tables_witness :
    (convert sample_world (some woff_no_tables) true).result = false ∧
    (convert sample_world (some woff_no_tables) true).m_error = "No tables found" ∧
    (convert sample_world (some woff_no_tables) true).ot_file = [] :=
  C7_no_tables sample_world woff_no_tables (by decide) (by decide)

/-- C9: for every input shorter than 44 bytes `convert` fails with "Error reading the input
file" (the output file stays empty); for every input with a complete header that declares
`N >= 1` tables and is shorter than `44 + 20*N` bytes `convert` fails with "Error reading
the table directory entries" (the output file holds the 12-byte header and the `16*N`-byte
placeholder and nothing else).  In neither case is any table data written. -/
theorem C9_truncated_input (w : World) (input : List byte_t) :
    (input.length < 44 →
      (convert w (some input) true).result = false ∧
      (convert w (some input) true).m_error = "Error reading the input file" ∧
      (convert w (some input) true).ot_file = []) ∧
    (44 ≤ input.length → 1 ≤ woff_num_tables input →
      input.length < 44 + 20 * woff_num_tables input →
      (convert w (some input) true).result = false ∧
      (convert w (some input) true).m_error = "Error reading the table directory entries" ∧
      (convert w (some input) true).ot_file =
        (ot_header (load32 input 4) (woff_num_tables input)).memory ++
          memory_at_record w (woff_num_tables input * 16) ∧
      (convert w (some input) true).ot_file.length = 12 + 16 * woff_num_tables input) := by
  constructor
  · intro hlen
    rw [convert_short_header w input hlen]
    exact ⟨rfl, rfl, rfl⟩
  · intro hlen hN hdir
    rw [convert_short_directory w input hlen hN hdir]
    refine ⟨rfl, rfl, rfl, ?_⟩
    simp only [after_directory, List.length_append, ot_header_memory_length,
      memory_at_record_length]
    omega

/-- C9, witness: the ten-byte file `woff_short_header` and the file `woff_short_directory`
whose directory breaks off. -/
theorem C9_truncated_input_witness :
    ((convert sample_world (some woff_short_header) true).result = false ∧
      (convert sample_world (some woff_short_header) true).m_error
        = "Error reading the input file" ∧
      (convert sample_world (some woff_short_header) true).ot_file = []) ∧
    ((convert sample_world (some woff_short_directory) true).result = false ∧
      (convert sample_world (some woff_short_directory) true).m_error
        = "Error reading the table directory entries" ∧
      (convert sample_world (some woff_short_directory) true).ot_file =
        (ot_header (load32 woff_short_directory 4)
            (woff_num_tables woff_short_directory)).memory ++
          memory_at_record sample_world (woff_num_tables woff_short_directory * 16) ∧
      (convert sample_world (some woff_short_directory) true).ot_file.length
        = 12 + 16 * woff_num_tables woff_short_directory) :=
  ⟨(C9_truncated_input sample_world woff_short_header).1 (by decide),
    (C9_truncated_input sample_world woff_short_directory).2 (by decide) (by decide)
      (by decide)⟩

theorem bswap32_lt (x : Nat) : bswap32 x < 4294967296 := by
  unfold bswap32; omega

theorem bswap32_bswap32 (x : Nat) : bswap32 (bswap32 x) = x % 4294967296 := by
  have key : ∀ a b c d : Nat, a < 256 → b < 256 → c < 256 → d < 256 →
      bswap32 (a * 16777216 + b * 65536 + c * 256 + d) = d * 16777216 + c * 65536 + b * 256 + a := by
    intro a b c d ha hb hc hd
    unfold bswap32
    omega
  have h := key (x % 256) (x / 256 % 256) (x / 65536 % 256) (x / 16777216 % 256)
    (Nat.mod_lt _ (by decide)) (Nat.mod_lt _ (by decide)) (Nat.mod_lt _ (by decide))
    (Nat.mod_lt _ (by decide))
  have e : bswap32 x = x % 256 * 16777216 + x / 256 % 256 * 65536 + x / 65536 % 256 * 256
      + x / 16777216 % 256 := rfl
  rw [e, h]
  clear e h key
  have h1 : x / 65536 = x / 256 / 256 := by rw [Nat.div_div_eq_div_mul]
  have h2 : x / 16777216 = x / 65536 / 256 := by rw [Nat.div_div_eq_div_mul]
  have h3 : x / 4294967296 = x / 16777216 / 256 := by rw [Nat.div_div_eq_div_mul]
  omega

theorem read_be32_store32 (x : Nat) (pre post : List byte_t) :
    read_be32 (pre ++ store32 x ++ post) pre.length = bswap32 x := by
  have h : ∀ k, (pre ++ store32 x ++ post).getD (pre.length + k) 0 = (store32 x ++ post).getD k 0 := by
    intro k
    rw [List.append_assoc, List.getD_eq_getElem?_getD, List.getD_eq_getElem?_getD,
      List.getElem?_append_right (by omega)]
    congr 2; omega
  unfold read_be32
  rw [show pre.length = pre.length + 0 from rfl, h 0, Nat.add_assoc, h (0 + 1),
    Nat.add_assoc, h (0 + 2), Nat.add_assoc, h (0 + 3)]
  simp only [store32, List.cons_append, List.nil_append, List.getD_cons_succ, List.getD_cons_zero,
    fin_ofNat_val, bswap32, Nat.zero_add]
  omega

theorem padded_mod4 (x : Nat) : padded x % 4 = 0 := by
  rw [padded_eq]; unfold pad4; omega

theorem recorded_mod4 (es : List table_directory_entry) :
    ∀ pos, pos % 4 = 0 → ∀ e ∈ recorded pos es, bswap32 e.offset % 4 = 0 := by
  induction es with
  | nil => intro pos _ e he; simp [recorded] at he
  | cons e0 rest ih =>
    intro pos hpos e he
    simp only [recorded, List.mem_cons] at he
    rcases he with he | he
    · subst he
      simp only [recorded_entry, bswap32_bswap32]
      omega
    · have := padded_mod4 e0.orig_length
      exact ih _ (by omega) e he

theorem recorded_chain (es : List table_directory_entry) :
    ∀ pos, (∀ e ∈ es, e.orig_length < 4294967296) →
    List.Chain' (fun a b => bswap32 b.offset =
      (bswap32 a.offset + pad4 (bswap32 a.orig_length)) % 4294967296) (recorded pos es) := by
  induction es with
  | nil => intro pos _; simp [recorded]
  | cons e0 rest ih =>
    intro pos hlt
    cases rest with
    | nil => simp [recorded]
    | cons e1 rest' =>
      have h := ih (pos + padded e0.orig_length) (fun e he => hlt e (List.mem_cons_of_mem _ he))
      simp only [recorded] at h ⊢
      refine List.Chain'.cons ?_ h
      have h0 := hlt e0 (List.mem_cons_self _ _)
      simp only [recorded_entry, bswap32_bswap32, Nat.mod_eq_of_lt h0, padded_eq]
      omega

theorem host_order_orig_length_lt (e : table_directory_entry) :
    (host_order e).orig_length < 4294967296 := bswap32_lt _

theorem write_order_perm (tbl : List table_directory_entry) :
    (write_order tbl).Perm (tbl.map host_order) :=
  List.perm_insertionSort _ _

theorem write_order_orig_length_lt (tbl : List table_directory_entry) :
    ∀ e ∈ write_order tbl, e.orig_length < 4294967296 := by
  intro e he
  have := (write_order_perm tbl).mem_iff.1 he
  rw [List.mem_map] at this
  obtain ⟨e0, _, rfl⟩ := this
  exact host_order_orig_length_lt e0

theorem woff_num_tables_lt (input : List byte_t) : woff_num_tables input < 65536 := by
  unfold woff_num_tables read_be16
  have h0 := (input.getD 12 0).isLt
  have h1 := (input.getD (12 + 1) 0).isLt
  omega

theorem recorded_head (es : List table_directory_entry) (pos : Nat) (e : table_directory_entry)
    (h : (recorded pos es).head? = some e) : bswap32 e.offset = pos % 4294967296 := by
  cases es with
  | nil => simp [recorded] at h
  | cons e0 rest =>
    simp only [recorded, List.head?_cons, Option.some.injEq] at h
    subst h
    simp [recorded_entry, bswap32_bswap32]

/-! ## The table records of the output -/

theorem flatten_chunk (l : List (List byte_t)) :
    ∀ (pre post : List byte_t) (i : Nat) (hi : i < l.length), (∀ c ∈ l, c.length = 16) →
    ((pre ++ l.flatten ++ post).drop (pre.length + 16 * i)).take 16 = l[i] := by
  induction l with
  | nil => intro pre post i hi; simp at hi
  | cons c rest ih =>
    intro pre post i hi hc
    have hc0 : c.length = 16 := hc c (List.mem_cons_self _ _)
    cases i with
    | zero =>
      simp only [Nat.mul_zero, Nat.add_zero, List.flatten_cons, List.getElem_cons_zero,
        List.append_assoc, List.drop_left]
      rw [← hc0, List.take_left]
    | succ j =>
      have h := ih (pre ++ c) post j (by simpa using hi)
        (fun c' hc' => hc c' (List.mem_cons_of_mem _ hc'))
      simp only [List.flatten_cons, List.getElem_cons_succ]
      rw [← h]
      congr 2
      · rw [List.length_append, hc0]; omega
      · simp [List.append_assoc]

theorem take_drop_take (X : List byte_t) (a b c : Nat) (h : a + b ≤ c) :
    ((X.take c).drop b).take a = (X.drop b).take a := by
  rw [List.drop_take, List.take_take, Nat.min_eq_left (by omega)]

theorem ot_fields_of_window (out : List byte_t) (i : Nat) (e : table_directory_entry)
    (h : record_window out i = (record_of_entry e).memory) :
    ot_tag out i = store32 e.tag ∧ ot_checksum out i = store32 e.orig_checksum ∧
    ot_offset out i = bswap32 e.offset ∧ ot_length out i = bswap32 e.orig_length := by
  unfold record_window at h
  have hm : (record_of_entry e).memory =
      store32 e.tag ++ store32 e.orig_checksum ++ store32 e.offset ++ store32 e.orig_length := rfl
  refine ⟨?_, ?_, ?_, ?_⟩
  · have := congrArg (List.take 4) h
    rw [List.take_take] at this
    simp only [ot_tag]
    rw [show min 4 16 = 4 from rfl] at this
    rw [this, hm]
    simp [store32]
  · have := congrArg (fun X => (X.drop 4).take 4) h
    simp only [] at this
    rw [take_drop_take _ _ _ _ (by omega), List.drop_drop] at this
    simp only [ot_checksum]
    rw [this, hm]
    simp [store32]
  · have := congrArg (fun X => read_be32 X 8) h
    simp only [] at this
    rw [read_be32_window _ _ _ _ (by omega)] at this
    simp only [ot_offset]
    rw [this, hm]
    have := read_be32_store32 e.offset (store32 e.tag ++ store32 e.orig_checksum)
      (store32 e.orig_length)
    rw [show (store32 e.tag ++ store32 e.orig_checksum).length = 8 from rfl] at this
    simp only [List.append_assoc] at this ⊢
    exact this
  · have := congrArg (fun X => read_be32 X 12) h
    simp only [] at this
    rw [read_be32_window _ _ _ _ (by omega)] at this
    simp only [ot_length]
    rw [this, hm]
    have := read_be32_store32 e.orig_length
      (store32 e.tag ++ store32 e.orig_checksum ++ store32 e.offset) []
    rw [show (store32 e.tag ++ store32 e.orig_checksum ++ store32 e.offset).length = 12
      from rfl] at this
    simp only [List.append_assoc, List.append_nil] at this ⊢
    exact this

theorem tag_order_length (input : List byte_t) :
    (tag_order input).length = woff_num_tables input := by
  simp [tag_order, List.length_insertionSort, written_length]

theorem convert_success_records (w : World) (input : List byte_t)
    (h : (convert w (some input) true).result = true) (i : Nat)
    (hi : i < (tag_order input).length) :
    record_window (convert w (some input) true).ot_file i
      = (record_of_entry ((tag_order input)[i])).memory := by
  obtain ⟨_, _, _, s, _, _, _, hc⟩ := convert_success w input h
  rw [hc]
  simp only []
  unfold record_window
  have := flatten_chunk ((tag_order input).map (fun e => (record_of_entry e).memory))
    (ot_header (load32 input 4) (woff_num_tables input)).memory
    (s.m_output_file.data.drop (12 + woff_num_tables input * 16)) i (by simpa using hi)
    (by
      intro c hc
      rw [List.mem_map] at hc
      obtain ⟨e, _, rfl⟩ := hc
      exact record_memory_length _)
  rw [ot_header_memory_length] at this
  rw [this]
  simp

theorem recorded_map_carried (es : List table_directory_entry) :
    ∀ pos, (recorded pos es).map
        (fun e => (store32 e.tag, store32 e.orig_checksum, bswap32 e.orig_length))
      = es.map (fun e => (store32 e.tag, store32 e.orig_checksum,
          bswap32 (bswap32 e.orig_length))) := by
  induction es with
  | nil => intro pos; simp only [recorded, List.map_nil]
  | cons e rest ih =>
    intro pos
    show List.map _ (recorded_entry pos e :: recorded (pos + padded e.orig_length) rest) = _
    rw [List.map_cons, ih, List.map_cons]
    rfl

theorem read_be32_lt (m : List byte_t) (off : Nat) : read_be32 m off < 4294967296 := by
  unfold read_be32
  have h0 := (m.getD off 0).isLt
  have h1 := (m.getD (off + 1) 0).isLt
  have h2 := (m.getD (off + 2) 0).isLt
  have h3 := (m.getD (off + 3) 0).isLt
  omega

theorem output_records_eq (w : World) (input : List byte_t)
    (h : (convert w (some input) true).result = true) :
    (List.range (woff_num_tables input)).map (fun i =>
        (ot_tag (convert w (some input) true).ot_file i,
          ot_checksum (convert w (some input) true).ot_file i,
          ot_offset (convert w (some input) true).ot_file i,
          ot_length (convert w (some input) true).ot_file i))
      = (tag_order input).map
          (fun e => (store32 e.tag, store32 e.orig_checksum, bswap32 e.offset,
            bswap32 e.orig_length)) := by
  apply List.ext_getElem
  · simp [tag_order_length]
  · intro i h1 h2
    simp only [List.length_map] at h2
    simp only [List.getElem_map, List.getElem_range]
    obtain ⟨a, b, c, d⟩ := ot_fields_of_window _ i _ (convert_success_records w input h i h2)
    rw [a, b, c, d]

theorem output_directory_perm (w : World) (input : List byte_t)
    (h : (convert w (some input) true).result = true) :
    List.Perm
      ((List.range (woff_num_tables input)).map (fun i =>
        (ot_tag (convert w (some input) true).ot_file i,
          ot_checksum (convert w (some input) true).ot_file i,
          ot_length (convert w (some input) true).ot_file i)))
      ((List.range (woff_num_tables input)).map (fun i =>
        (woff_tag input i, woff_checksum input i, woff_orig_length input i))) := by
  obtain ⟨_, hdir, _, _⟩ := convert_success w input h
  have e1 := congrArg (List.map (fun q : List byte_t × List byte_t × Nat × Nat =>
    (q.1, q.2.1, q.2.2.2))) (output_records_eq w input h)
  simp only [List.map_map, Function.comp_def] at e1
  rw [e1]
  have p1 : (tag_order input).Perm (written input) := List.perm_insertionSort _ _
  refine (p1.map _).trans ?_
  unfold written
  rw [recorded_map_carried]
  refine ((write_order_perm (woff_directory input)).map _).trans ?_
  rw [woff_directory_host, List.map_map]
  apply List.Perm.of_eq
  apply List.map_congr_left
  intro i hi
  rw [List.mem_range] at hi
  obtain ⟨_, _, f3, f4, f5⟩ := host_entry_fields input i hi hdir
  simp only [Function.comp, f3, f4, f5, bswap32_bswap32]
  rw [Nat.mod_eq_of_lt (show woff_orig_length input i < 4294967296 from read_be32_lt _ _)]

/-- C6: for every input on which `convert` succeeds, the output directory is a rearrangement
of the input directory: the list of (tag bytes, checksum bytes, length field) of the `N`
output table records is a permutation of the list of (tag bytes, checksum bytes,
`orig_length`) of the `N` input directory entries. -/
theorem C6_directory_rearranged (w : World) (input : List byte_t)
    (h : (convert w (some input) true).result = true) :
    List.Perm
      ((List.range (woff_num_tables input)).map (fun i =>
        (ot_tag (convert w (some input) true).ot_file i,
          ot_checksum (convert w (some input) true).ot_file i,
          ot_length (convert w (some input) true).ot_file i)))
      ((List.range (woff_num_tables input)).map (fun i =>
        (woff_tag input i, woff_checksum input i, woff_orig_length input i))) :=
  output_directory_perm w input h

/-- C6, witness: the two-table scenario `woff_head_glyf`. -/
theorem C6_directory_rearranged_witness :
    List.Perm
      ((List.range (woff_num_tables woff_head_glyf)).map (fun i =>
        (ot_tag (convert sample_world (some woff_head_glyf) true).ot_file i,
          ot_checksum (convert sample_world (some woff_head_glyf) true).ot_file i,
          ot_length (convert sample_world (some woff_head_glyf) true).ot_file i)))
      ((List.range (woff_num_tables woff_head_glyf)).map (fun i =>
        (woff_tag woff_head_glyf i, woff_checksum woff_head_glyf i,
          woff_orig_length woff_head_glyf i))) :=
  C6_directory_rearranged sample_world woff_head_glyf (by decide!)

/-! ## The order of the table records -/

theorem strncmp_total (n : Nat) :
    ∀ s1 s2 : List byte_t, s1.length = n → s2.length = n →
      strncmp s1 s2 n ≤ 0 ∨ strncmp s2 s1 n ≤ 0 := by
  induction n with
  | zero => intro s1 s2 _ _; left; unfold strncmp; split <;> simp_all
  | succ n ih =>
    intro s1 s2 h1 h2
    obtain ⟨a, t1, rfl⟩ := List.exists_cons_of_length_eq_add_one h1
    obtain ⟨b, t2, rfl⟩ := List.exists_cons_of_length_eq_add_one h2
    simp only [List.length_cons, Nat.add_right_cancel_iff] at h1 h2
    simp only [strncmp]
    by_cases hab : a = b
    · subst hab
      by_cases h0 : a = 0
      · simp [h0]
      · simp only [ne_eq, not_true_eq_false, if_false, h0]
        exact ih t1 t2 h1 h2
    · have hba : ¬ b = a := fun h => hab h.symm
      simp only [ne_eq, hab, hba, not_false_eq_true, if_true]
      have : a.val ≠ b.val := fun h => hab (Fin.ext h)
      omega

theorem strncmp_trans (n : Nat) :
    ∀ s1 s2 s3 : List byte_t, s1.length = n → s2.length = n → s3.length = n →
      strncmp s1 s2 n ≤ 0 → strncmp s2 s3 n ≤ 0 → strncmp s1 s3 n ≤ 0 := by
  induction n with
  | zero => intro s1 s2 s3 _ _ _ _ _; unfold strncmp; split <;> simp_all
  | succ n ih =>
    intro s1 s2 s3 h1 h2 h3
    obtain ⟨a, t1, rfl⟩ := List.exists_cons_of_length_eq_add_one h1
    obtain ⟨b, t2, rfl⟩ := List.exists_cons_of_length_eq_add_one h2
    obtain ⟨c, t3, rfl⟩ := List.exists_cons_of_length_eq_add_one h3
    simp only [List.length_cons, Nat.add_right_cancel_iff] at h1 h2 h3
    simp only [strncmp]
    intro h12 h23
    by_cases hab : a = b
    · subst hab
      by_cases hac : a = c
      · subst hac
        by_cases h0 : a = 0
        · simp [h0]
        · simp only [ne_eq, not_true_eq_false, if_false, h0] at h12 h23 ⊢
          exact ih t1 t2 t3 h1 h2 h3 h12 h23
      · simp only [ne_eq, hac, not_false_eq_true, if_true] at h23 ⊢
        exact h23
    · simp only [ne_eq, hab, not_false_eq_true, if_true] at h12
      have hab' : a.val ≠ b.val := fun h => hab (Fin.ext h)
      by_cases hbc : b = c
      · subst hbc
        simp only [ne_eq, hab, not_false_eq_true, if_true]
        exact h12
      · simp only [ne_eq, hbc, not_false_eq_true, if_true] at h23
        have hbc' : b.val ≠ c.val := fun h => hbc (Fin.ext h)
        have hac : ¬ a = c := by
          intro h; subst h; omega
        simp only [ne_eq, hac, not_false_eq_true, if_true]
        omega

theorem strncmp_strict (n : Nat) :
    ∀ s1 s2 : List byte_t, s1.length = n → s2.length = n → (∀ b ∈ s1, b ≠ 0) →
      strncmp s1 s2 n ≤ 0 → s1 ≠ s2 → bytes_lt s1 s2 := by
  induction n with
  | zero =>
    intro s1 s2 h1 h2 _ _ hne
    rw [List.length_eq_zero] at h1 h2
    subst h1 h2
    exact absurd rfl hne
  | succ n ih =>
    intro s1 s2 h1 h2
    obtain ⟨a, t1, rfl⟩ := List.exists_cons_of_length_eq_add_one h1
    obtain ⟨b, t2, rfl⟩ := List.exists_cons_of_length_eq_add_one h2
    simp only [List.length_cons, Nat.add_right_cancel_iff] at h1 h2
    intro hnz hle hne
    simp only [strncmp] at hle
    simp only [bytes_lt]
    by_cases hab : a = b
    · subst hab
      right
      have h0 : a ≠ 0 := hnz a (List.mem_cons_self _ _)
      simp only [ne_eq, not_true_eq_false, if_false, h0] at hle
      refine ⟨rfl, ih t1 t2 h1 h2 (fun b hb => hnz b (List.mem_cons_of_mem _ hb)) hle ?_⟩
      intro h; exact hne (by rw [h])
    · left
      simp only [ne_eq, hab, not_false_eq_true, if_true] at hle
      have hab' : a.val ≠ b.val := fun h => hab (Fin.ext h)
      exact Fin.lt_def.2 (by omega)

theorem store32_length (x : Nat) : (store32 x).length = 4 := rfl

theorem compare_tag_sorted (l : List table_directory_entry) :
    List.Pairwise (fun a b => compare_tag a b ≤ 0)
      (l.insertionSort (fun a b => compare_tag a b ≤ 0)) := by
  have ht : IsTotal table_directory_entry (fun a b => compare_tag a b ≤ 0) :=
    ⟨fun a b => strncmp_total 4 _ _ (store32_length _) (store32_length _)⟩
  have htr : IsTrans table_directory_entry (fun a b => compare_tag a b ≤ 0) :=
    ⟨fun a b c => strncmp_trans 4 _ _ _ (store32_length _) (store32_length _)
      (store32_length _)⟩
  exact List.sorted_insertionSort _ l

theorem output_tags_sorted (w : World) (input : List byte_t)
    (h : (convert w (some input) true).result = true)
    (hnul : ∀ i, i < woff_num_tables input → ∀ b ∈ woff_tag input i, b ≠ 0)
    (hdistinct : ∀ i, i < woff_num_tables input → ∀ j, j < woff_num_tables input → i ≠ j →
      woff_tag input i ≠ woff_tag input j) :
    List.Pairwise bytes_lt
      ((List.range (woff_num_tables input)).map
        (ot_tag (convert w (some input) true).ot_file)) := by
  have e1 := congrArg (List.map (fun q : List byte_t × List byte_t × Nat × Nat => q.1))
    (output_records_eq w input h)
  simp only [List.map_map, Function.comp_def] at e1
  have p1 := (output_directory_perm w input h).map
    (fun q : List byte_t × List byte_t × Nat => q.1)
  simp only [List.map_map, Function.comp_def] at p1
  have hnodup_in : ((List.range (woff_num_tables input)).map (fun i => woff_tag input i)).Nodup := by
    unfold List.Nodup
    rw [List.pairwise_iff_getElem]
    intro i j hi hj hij
    simp only [List.length_map, List.length_range] at hi hj
    simp only [List.getElem_map, List.getElem_range]
    exact hdistinct i hi j hj (by omega)
  have hnodup := (p1.nodup_iff).2 hnodup_in
  have hsorted : List.Pairwise (fun s t => strncmp s t 4 ≤ 0)
      ((List.range (woff_num_tables input)).map
        (fun i => ot_tag (convert w (some input) true).ot_file i)) := by
    rw [e1]
    exact (compare_tag_sorted (written input)).map _ (fun a b hab => hab)
  have hmem : ∀ s ∈ (List.range (woff_num_tables input)).map
      (fun i => ot_tag (convert w (some input) true).ot_file i),
      s.length = 4 ∧ ∀ b ∈ s, b ≠ 0 := by
    intro s hs
    constructor
    · rw [e1, List.mem_map] at hs
      obtain ⟨e, _, rfl⟩ := hs
      rfl
    · have := p1.mem_iff.1 hs
      rw [List.mem_map] at this
      obtain ⟨k, hk, rfl⟩ := this
      rw [List.mem_range] at hk
      exact hnul k hk
  exact (hsorted.and hnodup).imp_of_mem (fun {a b} ha hb hab =>
    strncmp_strict 4 a b (hmem a ha).1 (hmem b hb).1 (hmem a ha).2 hab.1 hab.2)

/-- C3: for every WOFF1 input with valid, pairwise distinct table tags (a valid tag has no
zero byte) on which `convert` succeeds, the 16-byte table records written at output offset
12 are in strictly ascending order of their 4 tag bytes, compared lexicographically byte by
byte as unsigned values. -/
theorem C3_records_sorted_by_tag (w : World) (input : List byte_t)
    (h : (convert w (some input) true).result = true)
    (hnul : ∀ i, i < woff_num_tables input → ∀ b ∈ woff_tag input i, b ≠ 0)
    (hdistinct : ∀ i, i < woff_num_tables input → ∀ j, j < woff_num_tables input → i ≠ j →
      woff_tag input i ≠ woff_tag input j) :
    1 ≤ woff_num_tables input ∧
    ∀ i j, i < j → j < woff_num_tables input →
      bytes_lt (ot_tag (convert w (some input) true).ot_file i)
        (ot_tag (convert w (some input) true).ot_file j) := by
  refine ⟨(convert_success w input h).1, ?_⟩
  intro i j hij hj
  have hp := output_tags_sorted w input h hnul hdistinct
  rw [List.pairwise_iff_getElem] at hp
  have := hp i j (by simp; omega) (by simpa using hj) hij
  simpa using this

/-- C3, witness: the two-table scenario of the specification, `woff_head_glyf`; its directory
lists `head` before `glyf`, and in the output the record of `glyf` precedes the record of
`head`. -/
theorem C3_records_sorted_by_tag_witness :
    (1 ≤ woff_num_tables woff_head_glyf ∧
      ∀ i j, i < j → j < woff_num_tables woff_head_glyf →
        bytes_lt (ot_tag (convert sample_world (some woff_head_glyf) true).ot_file i)
          (ot_tag (convert sample_world (some woff_head_glyf) true).ot_file j)) ∧
    woff_tag woff_head_glyf 0 = [104, 101, 97, 100] ∧
    woff_tag woff_head_glyf 1 = [103, 108, 121, 102] ∧
    ot_tag (convert sample_world (some woff_head_glyf) true).ot_file 0 = [103, 108, 121, 102] ∧
    ot_tag (convert sample_world (some woff_head_glyf) true).ot_file 1 = [104, 101, 97, 100] :=
  ⟨C3_records_sorted_by_tag sample_world woff_head_glyf (by decide!) (by decide!) (by decide!),
    by decide, by decide, by decide!, by decide!⟩

/-! ## Tables that the input file does not hold completely -/

theorem write_tables_body_stored (w w' : World) (bs : Nat) (e : table_directory_entry)
    (b1 b2 : List byte_t) (s : Woff2OT) (h : e.comp_length = e.orig_length) :
    write_tables_body w bs e b1 b2 s = write_tables_body w' bs e b1 b2 s := by
  have hlt : ¬ e.comp_length < e.orig_length := by omega
  unfold write_tables_body
  simp only [hlt, if_false]

/-- C1, the code at the failing input `woff_truncated_stored`: `convert` succeeds; table 1
(`bbbb`) is declared as 4 stored bytes at source offset 1000, where the input holds no byte;
its output record gives offset 48 and length 4, and the output bytes in that range are
`ABCD`, the bytes of table `aaaa` left in the scratch buffer. -/
theorem C1_truncated_table_gets_stale_bytes :
    (convert sample_world (some woff_truncated_stored) true).result = true ∧
    woff_tag woff_truncated_stored 1 = [98, 98, 98, 98] ∧
    woff_offset woff_truncated_stored 1 = 1000 ∧
    woff_comp_length woff_truncated_stored 1 = 4 ∧
    woff_orig_length woff_truncated_stored 1 = 4 ∧
    (woff_truncated_stored.drop 1000).take 4 = [] ∧
    ot_tag (convert sample_world (some woff_truncated_stored) true).ot_file 1
      = [98, 98, 98, 98] ∧
    ot_offset (convert sample_world (some woff_truncated_stored) true).ot_file 1 = 48 ∧
    ot_length (convert sample_world (some woff_truncated_stored) true).ot_file 1 = 4 ∧
    ((convert sample_world (some woff_truncated_stored) true).ot_file.drop 48).take 4
      = [65, 66, 67, 68] := by
  decide

/-- C8, the code at the failing input `woff_truncated_compressed`: table 1 (`bbbb`) has
`comp_length = 2 < orig_length = 4` and source offset 1000, where the input holds no byte, so
that the decoder reports an error on its stored bytes; `convert` succeeds all the same, and
the output bytes of the table are the four bytes decoded from the stream of table `aaaa`
left in the scratch buffer. -/
theorem C8_truncated_stream_decoded_from_stale_buffer :
    woff_total_sfnt_size woff_truncated_compressed
      = computed_sfnt_size woff_truncated_compressed ∧
    woff_comp_length woff_truncated_compressed 1 = 2 ∧
    woff_orig_length woff_truncated_compressed 1 = 4 ∧
    woff_offset woff_truncated_compressed 1 = 1000 ∧
    sample_world.inflate ((woff_truncated_compressed.drop 1000).take 2) = none ∧
    (convert sample_world (some woff_truncated_compressed) true).result = true ∧
    ot_tag (convert sample_world (some woff_truncated_compressed) true).ot_file 1
      = [98, 98, 98, 98] ∧
    ot_offset (convert sample_world (some woff_truncated_compressed) true).ot_file 1 = 48 ∧
    ot_length (convert sample_world (some woff_truncated_compressed) true).ot_file 1 = 4 ∧
    ((convert sample_world (some woff_truncated_compressed) true).ot_file.drop 48).take 4
      = [65, 65, 65, 65] := by
  decide

/-- C10, the code at the failing input `woff_truncated_single`: the only table has
`comp_length = orig_length = 8` and source offset 64, where the input holds three bytes;
`convert` succeeds, the output record gives offset 28 and length 8, and the output bytes in
that range are the three bytes followed by five zero bytes of the scratch buffer. -/
theorem C10_truncated_stored_table_filled_from_buffer :
    woff_comp_length woff_truncated_single 0 = 8 ∧
    woff_orig_length woff_truncated_single 0 = 8 ∧
    woff_offset woff_truncated_single 0 = 64 ∧
    (woff_truncated_single.drop 64).take 8 = [88, 89, 90] ∧
    (convert sample_world (some woff_truncated_single) true).result = true ∧
    ot_offset (convert sample_world (some woff_truncated_single) true).ot_file 0 = 28 ∧
    ot_length (convert sample_world (some woff_truncated_single) true).ot_file 0 = 8 ∧
    ((convert sample_world (some woff_truncated_single) true).ot_file.drop 28).take 8
      = [88, 89, 90, 0, 0, 0, 0, 0] := by
  decide

/-! ## The order written and the recorded offsets -/

theorem compare_offset_le_iff (a b : table_directory_entry) (ha : a.offset < 2147483648)
    (hb : b.offset < 2147483648) : compare_offset a b ≤ 0 ↔ a.offset ≤ b.offset := by
  unfold compare_offset to_int
  split <;> omega

theorem orderedInsert_congr {α : Type} (r s : α → α → Prop) [DecidableRel r] [DecidableRel s]
    (a : α) (l : List α) (h : ∀ b ∈ l, (r a b ↔ s a b)) :
    l.orderedInsert r a = l.orderedInsert s a := by
  induction l with
  | nil => rfl
  | cons b rest ih =>
    have hb := h b (List.mem_cons_self _ _)
    simp only [List.orderedInsert]
    by_cases hr : r a b
    · rw [if_pos hr, if_pos (hb.1 hr)]
    · rw [if_neg hr, if_neg (fun hs => hr (hb.2 hs)),
        ih (fun c hc => h c (List.mem_cons_of_mem _ hc))]

theorem insertionSort_congr {α : Type} (r s : α → α → Prop) [DecidableRel r] [DecidableRel s]
    (l : List α) (h : ∀ a ∈ l, ∀ b ∈ l, (r a b ↔ s a b)) :
    l.insertionSort r = l.insertionSort s := by
  induction l with
  | nil => rfl
  | cons a rest ih =>
    have ih' := ih (fun x hx y hy => h x (List.mem_cons_of_mem _ hx) y (List.mem_cons_of_mem _ hy))
    simp only [List.insertionSort]
    rw [ih']
    apply orderedInsert_congr
    intro b hb
    have hb' : b ∈ rest := (List.perm_insertionSort s rest).mem_iff.1 hb
    exact h a (List.mem_cons_self _ _) b (List.mem_cons_of_mem _ hb')

theorem write_order_ascending (tbl : List table_directory_entry)
    (h : ∀ e ∈ tbl, (host_order e).offset < 2147483648) :
    List.Pairwise (fun a b => a.offset ≤ b.offset) (write_order tbl) := by
  have ht : IsTotal table_directory_entry (fun a b => a.offset ≤ b.offset) :=
    ⟨fun a b => Nat.le_total _ _⟩
  have htr : IsTrans table_directory_entry (fun a b => a.offset ≤ b.offset) :=
    ⟨fun a b c => Nat.le_trans⟩
  unfold write_order
  rw [insertionSort_congr _ (fun a b => a.offset ≤ b.offset)]
  · exact List.sorted_insertionSort _ _
  · intro a ha b hb
    rw [List.mem_map] at ha hb
    obtain ⟨a0, ha0, rfl⟩ := ha
    obtain ⟨b0, hb0, rfl⟩ := hb
    exact compare_offset_le_iff _ _ (h a0 ha0) (h b0 hb0)

theorem recorded_map_untouched (es : List table_directory_entry) :
    ∀ pos, (recorded pos es).map (fun e => (e.tag, e.comp_length, e.orig_checksum))
      = es.map (fun e => (e.tag, e.comp_length, e.orig_checksum)) := by
  induction es with
  | nil => intro pos; simp only [recorded, List.map_nil]
  | cons e rest ih =>
    intro pos
    show List.map _ (recorded_entry pos e :: recorded (pos + padded e.orig_length) rest) = _
    rw [List.map_cons, ih, List.map_cons]
    rfl

theorem woff_directory_offsets (input : List byte_t)
    (hdir : 44 + 20 * woff_num_tables input ≤ input.length)
    (h : ∀ i, i < woff_num_tables input → woff_offset input i < 2147483648) :
    ∀ e ∈ woff_directory input, (host_order e).offset < 2147483648 := by
  intro e he
  have hm : host_order e ∈ (woff_directory input).map host_order := List.mem_map_of_mem _ he
  rw [woff_directory_host, List.mem_map] at hm
  obtain ⟨i, hi, hie⟩ := hm
  rw [List.mem_range] at hi
  rw [← hie, (host_entry_fields input i hi hdir).1]
  exact h i hi

theorem qsort_all {α : Type} (l : List α) (compar : α → α → Int) :
    qsort l l.length compar = l.insertionSort (fun a b => compar a b ≤ 0) := by
  simp only [qsort, List.take_length, List.drop_length, List.append_nil]

/-- C4 (amended): for every input on which `convert` succeeds, the entries `T` that
`write_tables` returns (the tables in the order written, with the recorded output offset and
length, which `rewrite_table_record` writes into the records of the output) are the
directory entries in the order in which `qsort` with `compare_offset` leaves them, which is
ascending source offset when every source offset is below `2^31`; the first recorded output
offset is `12 + 16*N`, every recorded output offset is a multiple of 4, and for each
consecutive pair the next recorded output offset equals the previous one plus `pad4` of the
previous recorded length, modulo `2^32`. -/
theorem C4_output_offsets (w : World) (input : List byte_t)
    (h : (convert w (some input) true).result = true) :
    ∃ T s, write_tables w (woff_directory input) (woff_num_tables input)
        (after_directory w input) = (.ok T, s) ∧
      T.length = woff_num_tables input ∧
      (List.range (woff_num_tables input)).map (fun i =>
          (ot_tag (convert w (some input) true).ot_file i,
            ot_checksum (convert w (some input) true).ot_file i,
            ot_offset (convert w (some input) true).ot_file i,
            ot_length (convert w (some input) true).ot_file i))
        = (qsort T (woff_num_tables input) compare_tag).map
            (fun e => (store32 e.tag, store32 e.orig_checksum, bswap32 e.offset,
              bswap32 e.orig_length)) ∧
      T.map (fun e => (e.tag, e.comp_length, e.orig_checksum))
        = (write_order (woff_directory input)).map
            (fun e => (e.tag, e.comp_length, e.orig_checksum)) ∧
      ((∀ i, i < woff_num_tables input → woff_offset input i < 2147483648) →
        List.Pairwise (fun a b => a.offset ≤ b.offset) (write_order (woff_directory input))) ∧
      (∀ e, T.head? = some e → bswap32 e.offset = 12 + 16 * woff_num_tables input) ∧
      (∀ e ∈ T, bswap32 e.offset % 4 = 0) ∧
      List.Chain' (fun a b => bswap32 b.offset =
        (bswap32 a.offset + pad4 (bswap32 a.orig_length)) % 4294967296) T := by
  obtain ⟨_, hdir, _, s, hwt, _, _, _⟩ := convert_success w input h
  have hN := woff_num_tables_lt input
  refine ⟨written input, s, hwt, written_length input, ?_, recorded_map_untouched _ _, ?_, ?_,
    ?_, ?_⟩
  · rw [output_records_eq w input h]
    have := qsort_all (written input) compare_tag
    rw [written_length] at this
    rw [this]
    rfl
  · intro hoff
    exact write_order_ascending _ (woff_directory_offsets input hdir hoff)
  · intro e he
    rw [recorded_head _ _ e he]
    omega
  · exact recorded_mod4 _ _ (by omega)
  · exact recorded_chain _ _ (write_order_orig_length_lt _)

/-- C4, witness: the two-table scenario `woff_head_glyf`. -/
theorem C4_output_offsets_witness :
    ∃ T s, write_tables sample_world (woff_directory woff_head_glyf)
        (woff_num_tables woff_head_glyf) (after_directory sample_world woff_head_glyf)
        = (.ok T, s) ∧
      T.length = woff_num_tables woff_head_glyf ∧
      (List.range (woff_num_tables woff_head_glyf)).map (fun i =>
          (ot_tag (convert sample_world (some woff_head_glyf) true).ot_file i,
            ot_checksum (convert sample_world (some woff_head_glyf) true).ot_file i,
            ot_offset (convert sample_world (some woff_head_glyf) true).ot_file i,
            ot_length (convert sample_world (some woff_head_glyf) true).ot_file i))
        = (qsort T (woff_num_tables woff_head_glyf) compare_tag).map
            (fun e => (store32 e.tag, store32 e.orig_checksum, bswap32 e.offset,
              bswap32 e.orig_length)) ∧
      T.map (fun e => (e.tag, e.comp_length, e.orig_checksum))
        = (write_order (woff_directory woff_head_glyf)).map
            (fun e => (e.tag, e.comp_length, e.orig_checksum)) ∧
      ((∀ i, i < woff_num_tables woff_head_glyf →
          woff_offset woff_head_glyf i < 2147483648) →
        List.Pairwise (fun a b => a.offset ≤ b.offset)
          (write_order (woff_directory woff_head_glyf))) ∧
      (∀ e, T.head? = some e → bswap32 e.offset = 12 + 16 * woff_num_tables woff_head_glyf) ∧
      (∀ e ∈ T, bswap32 e.offset % 4 = 0) ∧
      List.Chain' (fun a b => bswap32 b.offset =
        (bswap32 a.offset + pad4 (bswap32 a.orig_length)) % 4294967296) T :=
  C4_output_offsets sample_world woff_head_glyf (by decide!)

/-- C4, counterexample to the claim as stated, in two inputs on which `convert` succeeds.
On `woff_wrapped_pair` `write_tables` returns the entries `written woff_wrapped_pair` (table
`big ` written first, recorded at offset 44 with length `0xFFFFFFFF`; table `nil ` written
next, recorded at offset 44), and the second recorded offset is not the first plus `pad4` of
the first recorded length.  On `woff_descending_offsets` the table with source offset
`0x90000000` is written before the table with source offset `0x10`. -/
theorem C4_counterexample :
    ((convert sample_world (some woff_wrapped_pair) true).result = true ∧
      (write_tables sample_world (woff_directory woff_wrapped_pair)
          (woff_num_tables woff_wrapped_pair)
          (after_directory sample_world woff_wrapped_pair)).1.toOption
        = some (written woff_wrapped_pair) ∧
      (written woff_wrapped_pair).map
          (fun e => (store32 e.tag, bswap32 e.offset, bswap32 e.orig_length))
        = [([98, 105, 103, 32], 44, 4294967295), ([110, 105, 108, 32], 44, 0)] ∧
      ¬ List.Chain' (fun a b => bswap32 b.offset =
          bswap32 a.offset + pad4 (bswap32 a.orig_length)) (written woff_wrapped_pair)) ∧
    ((convert sample_world (some woff_descending_offsets) true).result = true ∧
      (write_tables sample_world (woff_directory woff_descending_offsets)
          (woff_num_tables woff_descending_offsets)
          (after_directory sample_world woff_descending_offsets)).1.toOption
        = some (written woff_descending_offsets) ∧
      (written woff_descending_offsets).map (fun e => store32 e.tag)
        = [[97, 97, 97, 97], [98, 98, 98, 98]] ∧
      (List.range 2).map (fun i =>
          (woff_tag woff_descending_offsets i, woff_offset woff_descending_offsets i))
        = [([97, 97, 97, 97], 2415919104), ([98, 98, 98, 98], 16)]) := by
  refine ⟨⟨by decide, by decide, by decide, ?_⟩, by decide, by decide, by decide, by decide⟩
  have e : written woff_wrapped_pair =
      [(written woff_wrapped_pair).getD 0 (table_directory_entry.mk 0 0 0 0 0),
        (written woff_wrapped_pair).getD 1 (table_directory_entry.mk 0 0 0 0 0)] := by decide
  rw [e, List.chain'_pair]
  decide

/-! ## The font type and the driver -/

theorem get_font_type_complete (input : List byte_t) (h : 44 ≤ input.length) :
    get_font_type (some input) = read_be32 input 4 := by
  simp only [get_font_type, fread, sizeof_WOFF_header, List.drop_zero, List.length_take,
    Nat.min_eq_left h, ne_eq, not_true_eq_false, if_false, (header_fields input).2.2,
    bswap32_load32]

theorem get_font_type_short (input : List byte_t) (h : input.length < 44) :
    get_font_type (some input) = 0 := by
  have hshort : ¬ min 44 input.length = 44 := by omega
  simp only [get_font_type, fread, sizeof_WOFF_header, List.drop_zero, List.length_take,
    ne_eq, hshort, not_false_eq_true, if_true]

theorem main_type_status (w : World) (fs : FileSystem) (name path : String) :
    (main w fs [name, "-type", path]).status
      = if get_font_type (fs.content path) = 0 then 1 else 0 := by
  have h1 : ("-type" : String).data.head? = some '-' := by decide
  have h2 : ("-type" : String).data.tail = "type".data := by decide
  simp only [main, List.length_cons, List.length_nil, List.getD_cons_succ, List.getD_cons_zero,
    ne_eq, not_true_eq_false, if_false, h1, h2, if_true]
  have h3 : (write_font_type (fs.content path)).1 = get_font_type (fs.content path) := by
    unfold write_font_type
    simp only []
    split_ifs <;> rfl
  rw [← h3]
  by_cases h : (write_font_type (fs.content path)).1 = 0
  · simp [h]
  · have : ¬ 0 = (write_font_type (fs.content path)).1 := fun e => h e.symm
    simp [h, this]

/-- C12: for every input of at least 44 bytes `get_font_type` returns the value of input
bytes 4..7 read as a big-endian integer, and for every shorter input and for a file that
cannot be opened it returns 0; `write_font_type` returns that same value and writes the
line for TrueType when it is `0x00010000`, for TrueType for Mac when it is `0x74727565`, for
PostScript when it is `0x4F54544F`, and the line for an unknown type for every other
value. -/
theorem C12_font_type (input : List byte_t) (woff_file : Option (List byte_t)) :
    (44 ≤ input.length → get_font_type (some input) = read_be32 input 4) ∧
    (input.length < 44 → get_font_type (some input) = 0) ∧
    get_font_type none = 0 ∧
    (write_font_type woff_file).1 = get_font_type woff_file ∧
    (get_font_type woff_file = 0x00010000 →
      (write_font_type woff_file).2 = "Font type is OpenType TrueType (.TTF)") ∧
    (get_font_type woff_file = 0x74727565 →
      (write_font_type woff_file).2 = "Font type is OpenType TrueType for Mac (.TTF)") ∧
    (get_font_type woff_file = 0x4F54544F →
      (write_font_type woff_file).2 = "Font type is OpenType PostScript (.OTF)") ∧
    (get_font_type woff_file ≠ 0x00010000 → get_font_type woff_file ≠ 0x74727565 →
      get_font_type woff_file ≠ 0x4F54544F →
      (write_font_type woff_file).2 = "Font type is unknown or font is not a WOFF font") := by
  refine ⟨get_font_type_complete input, get_font_type_short input, rfl, ?_, ?_, ?_, ?_, ?_⟩
  · unfold write_font_type
    simp only []
    split_ifs <;> rfl
  · intro h
    simp [write_font_type, h, OPENTYPE_TRUETYPE]
  · intro h
    simp [write_font_type, h, OPENTYPE_TRUETYPE, OPENTYPE_TRUETYPE_MAC]
  · intro h
    simp [write_font_type, h, OPENTYPE_TRUETYPE, OPENTYPE_TRUETYPE_MAC, OPENTYPE_CFF]
  · intro h1 h2 h3
    simp [write_font_type, h1, h2, h3, OPENTYPE_TRUETYPE, OPENTYPE_TRUETYPE_MAC, OPENTYPE_CFF]

/-- C12, witness: the complete headers `woff_no_tables` (TrueType), `woff_cff_flavor` and
`woff_unknown_flavor`, and the ten-byte file `woff_short_header`. -/
theorem C12_font_type_witness :
    get_font_type (some woff_cff_flavor) = read_be32 woff_cff_flavor 4 ∧
    get_font_type (some woff_short_header) = 0 ∧
    (write_font_type (some woff_no_tables)).2 = "Font type is OpenType TrueType (.TTF)" ∧
    (write_font_type (some woff_cff_flavor)).2 = "Font type is OpenType PostScript (.OTF)" ∧
    (write_font_type (some woff_unknown_flavor)).2
      = "Font type is unknown or font is not a WOFF font" :=
  ⟨(C12_font_type woff_cff_flavor none).1 (by decide),
    (C12_font_type woff_short_header none).2.1 (by decide),
    (C12_font_type [] (some woff_no_tables)).2.2.2.2.1 (by decide),
    (C12_font_type [] (some woff_cff_flavor)).2.2.2.2.2.2.1 (by decide),
    (C12_font_type [] (some woff_unknown_flavor)).2.2.2.2.2.2.2 (by decide) (by decide)
      (by decide)⟩

/-- C13, the code at the failing input `woff_unknown_flavor`: the flavor `0x12345678` is none
of the three known values, `write_font_type` writes the line for an unknown type, and the
driver invoked as `woff2ot -type font.woff` exits with status 0. -/
theorem C13_unknown_flavor_exits_with_success :
    get_font_type (some woff_unknown_flavor) = 0x12345678 ∧
    (main sample_world { content := fun _ => some woff_unknown_flavor, creatable := fun _ => true }
      ["woff2ot", "-type", "font.woff"]).printed
      = ["Font type is unknown or font is not a WOFF font"] ∧
    (main sample_world { content := fun _ => some woff_unknown_flavor, creatable := fun _ => true }
      ["woff2ot", "-type", "font.woff"]).status = 0 := by
  decide

/-- C20: for every `N` with `1 <= N <= 65535`, `max_power_of_2 N` is a power of two `P` with
`P <= N < 2*P`, and `max_power_of_2 0 = 0`. -/
theorem C20_max_power_of_2 (N : Nat) :
    (1 ≤ N → N ≤ 65535 →
      (∃ k, max_power_of_2 N = 2 ^ k) ∧ max_power_of_2 N ≤ N ∧ N < 2 * max_power_of_2 N ∧
        max_power_of_2 N < 65536) ∧
    max_power_of_2 0 = 0 := by
  refine ⟨?_, rfl⟩
  intro h1 h2
  rw [max_power_of_2_eq N h1]
  have hle : 2 ^ Nat.log2 N ≤ N := Nat.log2_self_le (by omega)
  have hlt := @Nat.lt_log2_self N
  rw [Nat.pow_succ] at hlt
  exact ⟨⟨_, rfl⟩, hle, by omega, by omega⟩

/-- C20, witness: `N = 1000`, where the loop stops at 512. -/
theorem C20_max_power_of_2_witness :
    ((∃ k, max_power_of_2 1000 = 2 ^ k) ∧ max_power_of_2 1000 ≤ 1000 ∧
      1000 < 2 * max_power_of_2 1000 ∧ max_power_of_2 1000 < 65536) ∧
    max_power_of_2 1000 = 512 :=
  ⟨(C20_max_power_of_2 1000).1 (by decide) (by decide), by decide!⟩

/-! ## The comparison functions, the placeholder and the scratch buffers -/

/-- C16, the code at the failing input `woff_descending_offsets`: the first directory entry
has source offset `0x90000000`, the second `0x10`; `compare_offset` of the first and the
second is negative although the first offset is the greater one, and `convert` succeeds
with the table at `0x90000000` written before the table at `0x10`. -/
theorem C16_compare_offset_wraps :
    (host_entry woff_descending_offsets 0).offset = 0x90000000 ∧
    (host_entry woff_descending_offsets 1).offset = 0x10 ∧
    compare_offset (host_entry woff_descending_offsets 0)
      (host_entry woff_descending_offsets 1) < 0 ∧
    (convert sample_world (some woff_descending_offsets) true).result = true ∧
    (write_tables sample_world (woff_directory woff_descending_offsets)
        (woff_num_tables woff_descending_offsets)
        (after_directory sample_world woff_descending_offsets)).1.toOption
      = some (written woff_descending_offsets) ∧
    (write_order (woff_directory woff_descending_offsets)).map (fun e => e.offset)
      = [0x90000000, 0x10] ∧
    (written woff_descending_offsets).map (fun e => store32 e.tag)
      = [[97, 97, 97, 97], [98, 98, 98, 98]] := by
  decide

/-- C17, the code at the failing input `woff_nul_tags`: the tags `61 00 00 62` and
`61 00 00 61` differ in their last byte, `compare_tag` of the two entries is 0, `convert`
succeeds, and the two records of the output keep the order of the directory, the greater tag
first. -/
theorem C17_compare_tag_stops_at_zero_byte :
    woff_tag woff_nul_tags 0 = [97, 0, 0, 98] ∧
    woff_tag woff_nul_tags 1 = [97, 0, 0, 97] ∧
    compare_tag (host_entry woff_nul_tags 0) (host_entry woff_nul_tags 1) = 0 ∧
    compare_tag (host_entry woff_nul_tags 1) (host_entry woff_nul_tags 0) = 0 ∧
    (convert sample_world (some woff_nul_tags) true).result = true ∧
    ot_tag (convert sample_world (some woff_nul_tags) true).ot_file 0 = [97, 0, 0, 98] ∧
    ot_tag (convert sample_world (some woff_nul_tags) true).ot_file 1 = [97, 0, 0, 97] ∧
    bytes_lt [97, 0, 0, 97] [97, 0, 0, 98] := by
  refine ⟨by decide, by decide, by decide, by decide, by decide!, by decide!, by decide!, ?_⟩
  simp [bytes_lt]

theorem memory_at_record_getElem (w : World) (n k : Nat) (h : k < n) :
    (memory_at_record w n)[k]? =
      some (if k < 16 then 0 else w.stack (k - 16)) := by
  unfold memory_at_record
  rw [List.getElem?_map, List.getElem?_range h]
  simp only [Option.map_some', sizeof_table_record]
  by_cases hk : k < 16
  · simp only [hk, if_true]
    have : k = 0 ∨ k = 1 ∨ k = 2 ∨ k = 3 ∨ k = 4 ∨ k = 5 ∨ k = 6 ∨ k = 7 ∨ k = 8 ∨ k = 9 ∨
        k = 10 ∨ k = 11 ∨ k = 12 ∨ k = 13 ∨ k = 14 ∨ k = 15 := by omega
    rcases this with h | h | h | h | h | h | h | h | h | h | h | h | h | h | h | h <;>
      subst h <;> rfl
  · simp only [hk, if_false]

/-- C18, the code at the failing input `woff_two_tables_no_directory` (`N = 2`): of the 32
bytes that `write_temp_table_record` writes behind the 12-byte header, the first 16 are the
zero bytes of `record` and the other 16 are read from the memory behind `record` (in the
world of the examples the byte `0xAA`); they stay in the output file when `convert` fails at
the directory. -/
theorem C18_placeholder_read_past_record :
    woff_num_tables woff_two_tables_no_directory = 2 ∧
    (write_temp_table_record sample_world 2
      (write_ot_header (load32 woff_two_tables_no_directory 4) 2
        { m_input_file := { data := woff_two_tables_no_directory, pos := 44 },
          m_output_file := { data := [], pos := 0 } })).m_output_file.data.drop 12
      = List.replicate 16 0 ++ List.replicate 16 (sample_world.stack 0) ∧
    sample_world.stack 0 = 0xAA ∧
    (convert sample_world (some woff_two_tables_no_directory) true).m_error
      = "Error reading the table directory entries" ∧
    (convert sample_world (some woff_two_tables_no_directory) true).ot_file.drop 12
      = List.replicate 16 0 ++ List.replicate 16 0xAA := by
  decide

/-- C19, the code at the failing input `woff_buffer_wrap`: the file passes the size check,
the only table has `orig_length = 0xFFFFFFFC`, the size of the scratch buffers computed in
32-bit arithmetic is 0, the padded length that `write_tables` writes out of the buffer is
`0xFFFFFFFC`, and the conversion leaves the buffer. -/
theorem C19_buffer_size_wraps :
    woff_total_sfnt_size woff_buffer_wrap = computed_sfnt_size woff_buffer_wrap ∧
    woff_comp_length woff_buffer_wrap 0 = 0xFFFFFFFC ∧
    woff_orig_length woff_buffer_wrap 0 = 0xFFFFFFFC ∧
    (get_max_buffer_size (woff_directory woff_buffer_wrap)
      (woff_num_tables woff_buffer_wrap)).1 = 0xFFFFFFFC ∧
    scratch_size (woff_directory woff_buffer_wrap) = 0 ∧
    padded (woff_orig_length woff_buffer_wrap 0) = 0xFFFFFFFC ∧
    (convert sample_world (some woff_buffer_wrap) true).in_bounds = false := by
  decide

/-! ## Padding, the blocks of the output and its length -/

theorem pad_table_loop_some (count : Nat) :
    ∀ (buffer : List byte_t) (i : Nat), i + count ≤ buffer.length →
      ∃ b, pad_table_loop buffer i count = some b := by
  induction count with
  | zero => intro buffer i _; exact ⟨buffer, rfl⟩
  | succ n ih =>
    intro buffer i h
    have hi : i < buffer.length := by omega
    simp only [pad_table_loop, hi, if_true]
    exact ih _ _ (by rw [List.length_set]; omega)

theorem pad_table_loop_spec (count : Nat) :
    ∀ (buffer b : List byte_t) (i : Nat), pad_table_loop buffer i count = some b →
      b.length = buffer.length ∧ (count = 0 ∨ i + count ≤ buffer.length) ∧
      (∀ j, j < i → b[j]? = buffer[j]?) ∧
      (∀ j, i ≤ j → j < i + count → b[j]? = some 0) := by
  induction count with
  | zero =>
    intro buffer b i h
    simp only [pad_table_loop, Option.some.injEq] at h
    subst h
    exact ⟨rfl, Or.inl rfl, fun _ _ => rfl, fun j h1 h2 => by omega⟩
  | succ n ih =>
    intro buffer b i h
    simp only [pad_table_loop] at h
    split at h
    · rename_i hi
      obtain ⟨h1, h2, h3, h4⟩ := ih _ _ _ h
      rw [List.length_set] at h1 h2
      refine ⟨h1, Or.inr (by omega), ?_, ?_⟩
      · intro j hj
        rw [h3 j (by omega), List.getElem?_set_ne (by omega)]
      · intro j hj1 hj2
        by_cases hji : j = i
        · subst hji
          rw [h3 j (by omega), List.getElem?_set_self hi]
        · exact h4 j (by omega) (by omega)
    · simp at h

theorem store_at_start_some (buffer got b : List byte_t) (h : store_at_start buffer got = some b) :
    b = got ++ buffer.drop got.length ∧ got.length ≤ buffer.length ∧ b.length = buffer.length := by
  unfold store_at_start at h
  split at h
  · rename_i hle
    simp only [Option.some.injEq] at h
    subst h
    refine ⟨rfl, hle, ?_⟩
    rw [List.length_append, List.length_drop]; omega
  · simp at h


theorem pad_table_some (buffer : List byte_t) (length padded_length : Nat)
    (h : padded_length ≤ buffer.length) :
    ∃ b, pad_table buffer length padded_length = some b ∧ b.length = buffer.length := by
  unfold pad_table
  by_cases hc : padded_length ≤ length
  · rw [Nat.sub_eq_zero_of_le hc]
    exact ⟨buffer, rfl, rfl⟩
  · obtain ⟨b, hb⟩ := pad_table_loop_some (padded_length - length) buffer length (by omega)
    exact ⟨b, hb, (pad_table_loop_spec _ _ _ _ hb).1⟩

theorem pad_table_spec (buffer b : List byte_t) (length padded_length : Nat)
    (h : pad_table buffer length padded_length = some b) :
    b.length = buffer.length ∧
    (∀ j, length ≤ j → j < padded_length → b[j]? = some 0) := by
  unfold pad_table at h
  obtain ⟨h1, _, _, h4⟩ := pad_table_loop_spec _ _ _ _ h
  exact ⟨h1, fun j hj1 hj2 => h4 j hj1 (by omega)⟩

theorem uncompress_ok (w : World) (dest : List byte_t) (destLen : Nat) (source : List byte_t)
    (h : ¬ (uncompress w dest destLen source).1 ≠ Z_OK) :
    (uncompress w dest destLen source).2.2 ≤ destLen ∧
    (uncompress w dest destLen source).2.1.length
      = max (uncompress w dest destLen source).2.2 dest.length := by
  unfold uncompress at h ⊢
  split
  · rename_i hin
    simp [hin, Z_OK, Z_DATA_ERROR] at h
  · rename_i out hin
    simp only [hin] at h
    split
    · rename_i hle
      refine ⟨hle, ?_⟩
      simp only [List.length_append, List.length_drop]
      omega
    · rename_i hle
      simp [hle, Z_OK, Z_BUF_ERROR] at h

theorem write_tables_body_ok_buffer (w : World) (bs : Nat) (e e' : table_directory_entry)
    (b1 b2 b1' b2' : List byte_t) (s s' : Woff2OT)
    (h : write_tables_body w bs e b1 b2 s = (.ok (e', b1', b2'), s'))
    (hb1 : b1.length = bs) :
    b1'.length = bs ∧
    (∀ j, e.orig_length ≤ j → j < padded e.orig_length → b1'[j]? = some 0) := by
  unfold write_tables_body at h
  simp only [] at h
  split at h
  · split at h
    · simp at h
    · split at h
      · simp at h
      · split at h
        · simp at h
        · split at h
          · simp at h
          · split at h
            · simp at h
            · split at h
              · simp at h
              · rename_i hok hdl _ padded_data hpad _ block hfb
                simp only [Prod.mk.injEq, Except.ok.injEq] at h
                obtain ⟨⟨_, hb, _⟩, _⟩ := h
                simp only [ne_eq, not_not] at hdl
                obtain ⟨q1, q2⟩ := uncompress_ok _ _ _ _ hok
                obtain ⟨p1, p2⟩ := pad_table_spec _ _ _ _ hpad
                rw [hdl] at p2 q1 q2
                subst hb
                refine ⟨?_, p2⟩
                rw [p1, q2, hb1]
                omega
  · split at h
    · simp at h
    · split at h
      · simp at h
      · split at h
        · simp at h
        · rename_i stored hst _ padded_data hpad _ block hfb
          simp only [Prod.mk.injEq, Except.ok.injEq] at h
          obtain ⟨⟨_, hb, _⟩, _⟩ := h
          obtain ⟨_, _, q3⟩ := store_at_start_some _ _ _ hst
          obtain ⟨p1, p2⟩ := pad_table_spec _ _ _ _ hpad
          subst hb
          exact ⟨by rw [p1, q3, hb1], p2⟩


theorem write_tables_loop_blocks (w : World) (bs : Nat) (es : List table_directory_entry) :
    ∀ (b1 b2 : List byte_t) (s s' : Woff2OT) (es' : List table_directory_entry),
    b1.length = bs → s.m_output_file.pos = s.m_output_file.data.length →
    write_tables_loop w bs es b1 b2 s = (.ok es', s') →
    zero_padded_blocks es (s'.m_output_file.data.drop s.m_output_file.data.length) ∧
    ∀ e ∈ es, padded e.orig_length ≤ bs := by
  induction es with
  | nil =>
    intro b1 b2 s s' es' _ hpos h
    simp only [write_tables_loop, Prod.mk.injEq, Except.ok.injEq] at h
    obtain ⟨_, h2⟩ := h
    subst h2
    simp [zero_padded_blocks]
  | cons e rest ih =>
    intro b1 b2 s s' es' hb1 hpos h
    have hfull := write_tables_loop_ok w bs (e :: rest) b1 b2 s s' es' hpos h
    unfold write_tables_loop at h
    split at h
    · simp at h
    · rename_i e1 b1' b2' s1 hbody
      obtain ⟨_, hle, hs1⟩ := write_tables_body_ok w bs e e1 b1 b2 b1' b2' s s1 hbody
      obtain ⟨hb1', hzero⟩ := write_tables_body_ok_buffer w bs e e1 b1 b2 b1' b2' s s1 hbody hb1
      have hlen : (b1'.take (padded e.orig_length)).length = padded e.orig_length := by
        simp [List.length_take, Nat.min_eq_left hle]
      have hs1pos : s1.m_output_file.pos = s1.m_output_file.data.length := by
        rw [hs1]; simp [fwrite, hpos]
      have hs1d : s1.m_output_file.data =
          s.m_output_file.data ++ b1'.take (padded e.orig_length) := by
        rw [hs1]; simp [fwrite, hpos]
      split at h
      · simp at h
      · rename_i rest' s2 hloop
        simp only [Prod.mk.injEq, Except.ok.injEq] at h
        obtain ⟨_, h2⟩ := h
        subst h2
        obtain ⟨i1, i2⟩ := ih b1' b2' s1 s2 rest' hb1' hs1pos hloop
        obtain ⟨_, _, _, j4⟩ := write_tables_loop_ok w bs rest b1' b2' s1 s2 rest' hs1pos hloop
        have j4' : s2.m_output_file.data.take s1.m_output_file.data.length
            = s1.m_output_file.data := by
          rw [← hs1pos]; exact j4
        have hsplit := (List.take_append_drop s1.m_output_file.data.length
          s2.m_output_file.data).symm
        rw [j4'] at hsplit
        generalize List.drop s1.m_output_file.data.length s2.m_output_file.data = tail at *
        have hdrop : s2.m_output_file.data.drop s.m_output_file.data.length =
            b1'.take (padded e.orig_length) ++ tail := by
          rw [hsplit, hs1d, List.append_assoc, List.drop_left]
        refine ⟨?_, ?_⟩
        · rw [hdrop]
          refine ⟨by rw [List.length_append, hlen]; omega, ?_, ?_⟩
          · intro j hj1 hj2
            rw [List.getElem?_append_left (by rw [hlen]; exact hj2), List.getElem?_take_of_lt hj2]
            exact hzero j hj1 hj2
          · rw [List.drop_left' hlen]
            exact i1
        · intro e0 he0
          rw [List.mem_cons] at he0
          rcases he0 with rfl | he0
          · rw [← hb1']; exact hle
          · exact i2 e0 he0

theorem zero_padded_blocks_getElem (es : List table_directory_entry) :
    ∀ (d : List byte_t), zero_padded_blocks es d →
    ∀ (k : Nat) (hk : k < es.length) (j : Nat), es[k].orig_length ≤ j →
      j < padded es[k].orig_length →
      d[((es.take k).map (fun e => padded e.orig_length)).sum + j]? = some 0 := by
  induction es with
  | nil => intro d _ k hk; simp at hk
  | cons e rest ih =>
    intro d h k hk j hj1 hj2
    obtain ⟨h1, h2, h3⟩ := h
    cases k with
    | zero =>
      simp only [List.take_zero, List.map_nil, List.sum_nil, Nat.zero_add]
      exact h2 j hj1 hj2
    | succ k =>
      have := ih _ h3 k (by simpa using hk) j hj1 hj2
      rw [List.getElem?_drop] at this
      simp only [List.take_succ_cons, List.map_cons, List.sum_cons, Nat.add_assoc]
      exact this

theorem zero_padded_blocks_length (es : List table_directory_entry) :
    ∀ (d : List byte_t), zero_padded_blocks es d →
      d.length = (es.map (fun e => padded e.orig_length)).sum := by
  induction es with
  | nil => intro d h; simp only [zero_padded_blocks] at h; subst h; rfl
  | cons e rest ih =>
    intro d h
    obtain ⟨h1, _, h3⟩ := h
    have := ih _ h3
    rw [List.length_drop] at this
    simp only [List.map_cons, List.sum_cons]
    omega


theorem records_flatten_length (l : List table_directory_entry) :
    ((l.map (fun e => (record_of_entry e).memory)).flatten).length = 16 * l.length := by
  induction l with
  | nil => rfl
  | cons e rest ih =>
    simp only [List.map_cons, List.flatten_cons, List.length_append, List.length_cons, ih,
      record_memory_length]
    omega

theorem convert_success_blocks (w : World) (input : List byte_t)
    (h : (convert w (some input) true).result = true) :
    zero_padded_blocks (write_order (woff_directory input))
      ((convert w (some input) true).ot_file.drop (12 + woff_num_tables input * 16)) ∧
    (∀ e ∈ write_order (woff_directory input),
      padded e.orig_length ≤ scratch_size (woff_directory input)) ∧
    (convert w (some input) true).ot_file.length = 12 + woff_num_tables input * 16 +
      ((write_order (woff_directory input)).map (fun e => padded e.orig_length)).sum := by
  obtain ⟨_, _, _, s, hwt, hlen, htake, hc⟩ := convert_success w input h
  have hwt2 := hwt
  rw [← woff_directory_length input, write_tables_eq] at hwt2
  have hpos0 : (after_directory w input).m_output_file.pos
      = (after_directory w input).m_output_file.data.length := by
    simp [after_directory, ot_header_memory_length, memory_at_record_length]
  have hl0 : (after_directory w input).m_output_file.data.length
      = 12 + woff_num_tables input * 16 := by
    simp [after_directory, ot_header_memory_length, memory_at_record_length]
  obtain ⟨k1, k2⟩ := write_tables_loop_blocks w _ _ _ _ _ _ _ (List.length_replicate _ _)
    hpos0 hwt2
  rw [hl0] at k1
  have hpre : ((ot_header (load32 input 4) (woff_num_tables input)).memory ++
      ((tag_order input).map (fun e => (record_of_entry e).memory)).flatten).length
      = 12 + woff_num_tables input * 16 := by
    rw [List.length_append, ot_header_memory_length, records_flatten_length, tag_order_length]
    omega
  have hdrop : (convert w (some input) true).ot_file.drop (12 + woff_num_tables input * 16)
      = s.m_output_file.data.drop (12 + woff_num_tables input * 16) := by
    rw [hc]
    simp only []
    rw [List.drop_left' hpre]
  refine ⟨by rw [hdrop]; exact k1, k2, ?_⟩
  rw [hc]
  simp only []
  rw [List.length_append, hpre, List.length_drop, hlen]
  omega


theorem write_tables_body_stored_ok (w : World) (bs : Nat) (e : table_directory_entry)
    (b1 b2 : List byte_t) (s : Woff2OT) (hst : ¬ e.comp_length < e.orig_length)
    (hgot : min e.orig_length (s.m_input_file.data.length - e.offset) ≤ b1.length)
    (hpad : padded e.orig_length ≤ b1.length) :
    ∃ e' b1' s', write_tables_body w bs e b1 b2 s = (.ok (e', b1', b2), s') ∧
      b1'.length = b1.length ∧ s'.m_input_file.data = s.m_input_file.data := by
  have hg : (List.take e.orig_length (List.drop e.offset s.m_input_file.data)).length
      ≤ b1.length := by
    rw [List.length_take, List.length_drop]; exact hgot
  have hs : store_at_start b1 (List.take e.orig_length (List.drop e.offset s.m_input_file.data))
      = some (List.take e.orig_length (List.drop e.offset s.m_input_file.data) ++
          b1.drop (List.take e.orig_length (List.drop e.offset s.m_input_file.data)).length) := by
    unfold store_at_start
    rw [if_pos hg]
  have hl : (List.take e.orig_length (List.drop e.offset s.m_input_file.data) ++
      b1.drop (List.take e.orig_length (List.drop e.offset s.m_input_file.data)).length).length
      = b1.length := by
    rw [List.length_append, List.length_drop]; omega
  obtain ⟨b, hb, hbl⟩ := pad_table_some _ e.orig_length (padded e.orig_length)
    (by rw [hl]; exact hpad)
  have hf : first_bytes b (padded e.orig_length) = some (b.take (padded e.orig_length)) := by
    unfold first_bytes
    rw [if_pos (by rw [hbl, hl]; exact hpad)]
  unfold padded at hb hf
  have key : write_tables_body w bs e b1 b2 s =
      (.ok (recorded_entry s.m_output_file.pos e, b, b2),
        Woff2OT.mk (FILE.mk s.m_input_file.data (e.offset +
            (List.take e.orig_length (List.drop e.offset s.m_input_file.data)).length))
          (fwrite (b.take ((e.orig_length + 3) &&& 0xFFFFFFFC)) s.m_output_file)) := by
    unfold write_tables_body
    simp only [hst, if_false, fread, fseek, hs, hb, hf]
    rfl
  exact ⟨_, _, _, key, by rw [hbl, hl], rfl⟩

theorem write_tables_loop_stored_ok (w : World) (bs : Nat) (D : List byte_t) (L : Nat)
    (es : List table_directory_entry) :
    ∀ (b1 b2 : List byte_t) (s : Woff2OT), s.m_input_file.data = D → b1.length = L →
    (∀ e ∈ es, ¬ e.comp_length < e.orig_length ∧
      min e.orig_length (D.length - e.offset) ≤ L ∧ padded e.orig_length ≤ L) →
    ∃ es' s', write_tables_loop w bs es b1 b2 s = (.ok es', s') := by
  induction es with
  | nil => intro b1 b2 s _ _ _; exact ⟨[], s, rfl⟩
  | cons e rest ih =>
    intro b1 b2 s hD hL hall
    obtain ⟨h1, h2, h3⟩ := hall e (List.mem_cons_self _ _)
    obtain ⟨e', b1', s1, hbody, hl1, hd1⟩ := write_tables_body_stored_ok w bs e b1 b2 s h1
      (by rw [hD, hL]; exact h2) (by rw [hL]; exact h3)
    obtain ⟨rest', s2, hloop⟩ := ih b1' b2 s1 (by rw [hd1, hD]) (by rw [hl1, hL])
      (fun e0 he0 => hall e0 (List.mem_cons_of_mem _ he0))
    refine ⟨e' :: rest', s2, ?_⟩
    unfold write_tables_loop
    simp only [hbody, hloop]

theorem convert_stored_success (w : World) (input : List byte_t)
    (hN : 0 < woff_num_tables input) (hdir : 44 + 20 * woff_num_tables input ≤ input.length)
    (hsz : woff_total_sfnt_size input = computed_sfnt_size input)
    (hall : ∀ e ∈ write_order (woff_directory input), ¬ e.comp_length < e.orig_length ∧
      min e.orig_length (input.length - e.offset) ≤ scratch_size (woff_directory input) ∧
      padded e.orig_length ≤ scratch_size (woff_directory input)) :
    (convert w (some input) true).result = true := by
  rw [convert_transcode w input hN hdir hsz]
  obtain ⟨es', s', hloop⟩ := write_tables_loop_stored_ok w (scratch_size (woff_directory input))
    input (scratch_size (woff_directory input)) (write_order (woff_directory input))
    (List.replicate _ 0) (List.replicate _ 0) (after_directory w input) rfl
    (List.length_replicate _ _) hall
  unfold transcode
  rw [← woff_directory_length input, write_tables_eq, hloop]
  rfl

theorem woff_four_gigabytes_success :
    (convert sample_world (some woff_four_gigabytes) true).result = true :=
  convert_stored_success sample_world woff_four_gigabytes (by decide) (by decide) (by decide)
    (by decide)


theorem write_order_sum (input : List byte_t) (f : Nat → Nat)
    (hdir : 44 + 20 * woff_num_tables input ≤ input.length) :
    ((write_order (woff_directory input)).map (fun e => f e.orig_length)).sum =
      ((List.range (woff_num_tables input)).map (fun i => f (woff_orig_length input i))).sum := by
  rw [((write_order_perm (woff_directory input)).map _).sum_eq, woff_directory_host,
    List.map_map]
  congr 1
  apply List.map_congr_left
  intro i hi
  rw [List.mem_range] at hi
  simp only [Function.comp, (host_entry_fields input i hi hdir).2.2.1]

theorem write_order_padded_sum (input : List byte_t)
    (hdir : 44 + 20 * woff_num_tables input ≤ input.length) :
    ((write_order (woff_directory input)).map (fun e => padded e.orig_length)).sum =
      ((List.range (woff_num_tables input)).map
        (fun i => pad4 (woff_orig_length input i) % 4294967296)).sum := by
  rw [write_order_sum input padded hdir]
  simp only [padded_eq]

/-- C14 (amended): for every input on which `convert` succeeds, the number of bytes of the
output file is `12 + 16*N` plus the sum over all tables of `pad4(orig_length) mod 2^32`, and
the `totalSfntSize` declared in the input header is that number modulo `2^32`; the two are
equal when the output file is shorter than `2^32` bytes. -/
theorem C14_output_length (w : World) (input : List byte_t)
    (h : (convert w (some input) true).result = true) :
    (convert w (some input) true).ot_file.length =
      12 + 16 * woff_num_tables input +
        ((List.range (woff_num_tables input)).map
          (fun i => pad4 (woff_orig_length input i) % 4294967296)).sum ∧
    woff_total_sfnt_size input = (convert w (some input) true).ot_file.length % 4294967296 ∧
    ((convert w (some input) true).ot_file.length < 4294967296 →
      (convert w (some input) true).ot_file.length = woff_total_sfnt_size input) := by
  obtain ⟨_, hdir, hsz, _⟩ := convert_success w input h
  obtain ⟨_, _, hlen⟩ := convert_success_blocks w input h
  rw [write_order_padded_sum input hdir] at hlen
  have hmod : woff_total_sfnt_size input
      = (convert w (some input) true).ot_file.length % 4294967296 := by
    rw [hsz, computed_sfnt_size_eq input hdir, hlen]
    have := sum_mod_mod (fun i => pad4 (woff_orig_length input i)) 4294967296
      (List.range (woff_num_tables input))
    omega
  refine ⟨by rw [hlen]; omega, hmod, ?_⟩
  intro hlt
  rw [hmod, Nat.mod_eq_of_lt hlt]

/-- C14, witness: the two-table scenario `woff_head_glyf`, whose output has the 1100 bytes
that the header declares. -/
theorem C14_output_length_witness :
    ((convert sample_world (some woff_head_glyf) true).ot_file.length =
      12 + 16 * woff_num_tables woff_head_glyf +
        ((List.range (woff_num_tables woff_head_glyf)).map
          (fun i => pad4 (woff_orig_length woff_head_glyf i) % 4294967296)).sum ∧
    woff_total_sfnt_size woff_head_glyf
      = (convert sample_world (some woff_head_glyf) true).ot_file.length % 4294967296 ∧
    ((convert sample_world (some woff_head_glyf) true).ot_file.length < 4294967296 →
      (convert sample_world (some woff_head_glyf) true).ot_file.length
        = woff_total_sfnt_size woff_head_glyf)) ∧
    woff_total_sfnt_size woff_head_glyf = 1100 :=
  ⟨C14_output_length sample_world woff_head_glyf (by decide!), by decide⟩

/-- C14, counterexample to the claim as stated, in two inputs on which `convert` succeeds.
On `woff_four_gigabytes` the output file has `2^32 + 64` bytes and the header declares 64.
On `woff_wrapped_size` the output file has the 28 bytes that the header declares, which is
not `12 + 16*N` plus the sum of `pad4(orig_length)`. -/
theorem C14_counterexample :
    ((convert sample_world (some woff_four_gigabytes) true).result = true ∧
      woff_total_sfnt_size woff_four_gigabytes = 64 ∧
      (convert sample_world (some woff_four_gigabytes) true).ot_file.length = 4294967360) ∧
    ((convert sample_world (some woff_wrapped_size) true).result = true ∧
      woff_total_sfnt_size woff_wrapped_size = 28 ∧
      (convert sample_world (some woff_wrapped_size) true).ot_file.length = 28 ∧
      12 + 16 * woff_num_tables woff_wrapped_size +
        ((List.range (woff_num_tables woff_wrapped_size)).map
          (fun i => pad4 (woff_orig_length woff_wrapped_size i))).sum = 4294967324) := by
  refine ⟨⟨woff_four_gigabytes_success, by decide, ?_⟩, by decide, by decide, by decide,
    by decide⟩
  rw [(convert_success_blocks sample_world woff_four_gigabytes woff_four_gigabytes_success).2.2]
  decide

theorem recorded_chain_lt (es : List table_directory_entry) :
    ∀ pos, (∀ e ∈ es, e.orig_length < 4294967296) →
    pos + (es.map (fun e => pad4 e.orig_length)).sum < 4294967296 →
    List.Chain' (fun a b => bswap32 a.offset ≤ bswap32 b.offset ∧
      (0 < bswap32 a.orig_length ↔ bswap32 a.offset < bswap32 b.offset)) (recorded pos es) := by
  induction es with
  | nil => intro pos _ _; simp [recorded]
  | cons e0 rest ih =>
    intro pos hlt hsum
    simp only [List.map_cons, List.sum_cons] at hsum
    cases rest with
    | nil => simp [recorded]
    | cons e1 rest' =>
      have h0 := hlt e0 (List.mem_cons_self _ _)
      have hp : padded e0.orig_length = pad4 e0.orig_length := by
        rw [padded_eq]
        exact Nat.mod_eq_of_lt (by omega)
      have h := ih (pos + padded e0.orig_length)
        (fun e he => hlt e (List.mem_cons_of_mem _ he)) (by rw [hp]; omega)
      simp only [recorded] at h ⊢
      refine List.Chain'.cons ?_ h
      simp only [recorded_entry, bswap32_bswap32, hp]
      rw [Nat.mod_eq_of_lt (show pos < 4294967296 by omega),
        Nat.mod_eq_of_lt (show pos + pad4 e0.orig_length < 4294967296 by omega),
        Nat.mod_eq_of_lt h0]
      unfold pad4
      omega

/-- C11 (amended): for every input on which `convert` succeeds and for which `12 + 16*N` plus
the sum of `pad4(orig_length)` over all tables is below `2^32`, the recorded output offsets of
the entries `T` that `write_tables` returns (the tables in the order written) never decrease,
and the recorded offset of a table is strictly greater than that of the table written before
it exactly when the table written before it is not empty. -/
theorem C11_output_offsets_increase (w : World) (input : List byte_t)
    (h : (convert w (some input) true).result = true)
    (hsize : 12 + 16 * woff_num_tables input +
      ((List.range (woff_num_tables input)).map
        (fun i => pad4 (woff_orig_length input i))).sum < 4294967296) :
    ∃ T s, write_tables w (woff_directory input) (woff_num_tables input)
        (after_directory w input) = (.ok T, s) ∧
      T.length = woff_num_tables input ∧
      List.Chain' (fun a b => bswap32 a.offset ≤ bswap32 b.offset ∧
        (0 < bswap32 a.orig_length ↔ bswap32 a.offset < bswap32 b.offset)) T := by
  obtain ⟨_, hdir, _, s, hwt, _, _, _⟩ := convert_success w input h
  refine ⟨written input, s, hwt, written_length input, ?_⟩
  apply recorded_chain_lt _ _ (write_order_orig_length_lt _)
  rw [write_order_sum input pad4 hdir]
  omega

/-- C11, witness: the two-table scenario `woff_head_glyf`. -/
theorem C11_output_offsets_increase_witness :
    ∃ T s, write_tables sample_world (woff_directory woff_head_glyf)
        (woff_num_tables woff_head_glyf) (after_directory sample_world woff_head_glyf)
        = (.ok T, s) ∧
      T.length = woff_num_tables woff_head_glyf ∧
      List.Chain' (fun a b => bswap32 a.offset ≤ bswap32 b.offset ∧
        (0 < bswap32 a.orig_length ↔ bswap32 a.offset < bswap32 b.offset)) T :=
  C11_output_offsets_increase sample_world woff_head_glyf (by decide!) (by decide)

/-- C11, counterexample to the claim as stated, in two inputs on which `convert` succeeds.
On `woff_empty_table` `write_tables` returns the entries `written woff_empty_table`: the empty
table `aaaa` written first and recorded at offset 44, the table `bbbb` written next and
recorded at offset 44 as well.  On `woff_four_gigabytes` it returns the entries
`written woff_four_gigabytes`, recorded at the offsets 60, `2^31 + 60` and 60: the third
recorded offset is smaller than the second. -/
theorem C11_counterexample :
    ((convert sample_world (some woff_empty_table) true).result = true ∧
      (write_tables sample_world (woff_directory woff_empty_table)
          (woff_num_tables woff_empty_table)
          (after_directory sample_world woff_empty_table)).1.toOption
        = some (written woff_empty_table) ∧
      (List.range 2).map (fun i => (woff_tag woff_empty_table i, woff_offset woff_empty_table i))
        = [([97, 97, 97, 97], 84), ([98, 98, 98, 98], 88)] ∧
      (written woff_empty_table).map
          (fun e => (store32 e.tag, bswap32 e.offset, bswap32 e.orig_length))
        = [([97, 97, 97, 97], 44, 0), ([98, 98, 98, 98], 44, 4)] ∧
      ¬ List.Chain' (fun a b => bswap32 a.offset < bswap32 b.offset)
          (written woff_empty_table)) ∧
    ((convert sample_world (some woff_four_gigabytes) true).result = true ∧
      (write_tables sample_world (woff_directory woff_four_gigabytes)
          (woff_num_tables woff_four_gigabytes)
          (after_directory sample_world woff_four_gigabytes)).1.toOption
        = some (written woff_four_gigabytes) ∧
      (List.range 3).map
          (fun i => (woff_tag woff_four_gigabytes i, woff_offset woff_four_gigabytes i))
        = [([97, 97, 97, 97], 104), ([98, 98, 98, 98], 108), ([99, 99, 99, 99], 112)] ∧
      (written woff_four_gigabytes).map
          (fun e => (store32 e.tag, bswap32 e.offset, bswap32 e.orig_length))
        = [([97, 97, 97, 97], 60, 2147483648), ([98, 98, 98, 98], 2147483708, 2147483648),
            ([99, 99, 99, 99], 60, 4)] ∧
      ¬ List.Chain' (fun a b => bswap32 a.offset < bswap32 b.offset)
          (written woff_four_gigabytes)) := by
  obtain ⟨_, _, _, s, hwt, _⟩ :=
    convert_success sample_world woff_four_gigabytes woff_four_gigabytes_success
  refine ⟨⟨by decide, by decide, by decide, by decide, ?_⟩, woff_four_gigabytes_success,
    by rw [hwt]; rfl, by decide, by decide, ?_⟩
  · have e : written woff_empty_table =
        [(written woff_empty_table).getD 0 (table_directory_entry.mk 0 0 0 0 0),
          (written woff_empty_table).getD 1 (table_directory_entry.mk 0 0 0 0 0)] := by decide
    rw [e, List.chain'_pair]
    decide
  · have e : written woff_four_gigabytes =
        [(written woff_four_gigabytes).getD 0 (table_directory_entry.mk 0 0 0 0 0),
          (written woff_four_gigabytes).getD 1 (table_directory_entry.mk 0 0 0 0 0),
          (written woff_four_gigabytes).getD 2 (table_directory_entry.mk 0 0 0 0 0)] := by
      decide
    rw [e, List.chain'_cons, List.chain'_pair]
    decide

theorem recorded_getElem_opt (es : List table_directory_entry) :
    ∀ (pos k : Nat), (recorded pos es)[k]? =
      es[k]?.map (recorded_entry (pos + ((es.take k).map (fun e => padded e.orig_length)).sum)) := by
  induction es with
  | nil => intro pos k; simp [recorded]
  | cons e rest ih =>
    intro pos k
    cases k with
    | zero => simp [recorded]
    | succ k =>
      simp only [recorded, List.getElem?_cons_succ, ih, List.take_succ_cons, List.map_cons,
        List.sum_cons, Nat.add_assoc]

theorem recorded_map_padded (es : List table_directory_entry) :
    ∀ pos, (∀ e ∈ es, e.orig_length < 4294967296) →
    (recorded pos es).map (fun e => padded (bswap32 e.orig_length))
      = es.map (fun e => padded e.orig_length) := by
  induction es with
  | nil => intro pos _; simp only [recorded, List.map_nil]
  | cons e rest ih =>
    intro pos hlt
    show List.map _ (recorded_entry pos e :: recorded (pos + padded e.orig_length) rest) = _
    rw [List.map_cons, ih _ (fun e he => hlt e (List.mem_cons_of_mem _ he)), List.map_cons]
    simp only [recorded_entry, bswap32_bswap32,
      Nat.mod_eq_of_lt (hlt e (List.mem_cons_self _ _))]

theorem foldl_max_ge (l : List table_directory_entry) :
    ∀ init, init ≤ l.foldl (fun size e => if e.orig_length > size then e.orig_length else size)
        init ∧
      ∀ e ∈ l, e.orig_length ≤
        l.foldl (fun size e => if e.orig_length > size then e.orig_length else size) init := by
  induction l with
  | nil => intro init; simp
  | cons a rest ih =>
    intro init
    simp only [List.foldl_cons, List.mem_cons, forall_eq_or_imp]
    obtain ⟨h1, h2⟩ := ih (if a.orig_length > init then a.orig_length else init)
    by_cases hc : a.orig_length > init
    · rw [if_pos hc] at h1 h2 ⊢
      exact ⟨by omega, h1, h2⟩
    · rw [if_neg hc] at h1 h2 ⊢
      exact ⟨h1, by omega, h2⟩

theorem foldl_max_lt (l : List table_directory_entry) (B : Nat) :
    ∀ init, init < B → (∀ e ∈ l, e.orig_length < B) →
      l.foldl (fun size e => if e.orig_length > size then e.orig_length else size) init < B := by
  induction l with
  | nil => intro init h _; simpa using h
  | cons a rest ih =>
    intro init h hl
    simp only [List.foldl_cons]
    apply ih
    · have := hl a (List.mem_cons_self _ _)
      split <;> omega
    · exact fun e he => hl e (List.mem_cons_of_mem _ he)

theorem scratch_size_small (tbl : List table_directory_entry) (e : table_directory_entry)
    (he : e ∈ write_order tbl) (hbig : 4294967292 < e.orig_length) :
    scratch_size tbl ≤ 3 := by
  have hmem := (write_order_perm tbl).mem_iff.1 he
  have h1 := (foldl_max_ge (tbl.map host_order) 0).2 e hmem
  have h2 := foldl_max_lt (tbl.map host_order) 4294967296 0 (by omega) (by
    intro e0 he0
    rw [List.mem_map] at he0
    obtain ⟨e1, _, rfl⟩ := he0
    exact host_order_orig_length_lt e1)
  unfold scratch_size
  omega

theorem sum_eq_zero_of_forall (l : List Nat) (h : ∀ x ∈ l, x = 0) : l.sum = 0 := by
  induction l with
  | nil => rfl
  | cons a rest ih =>
    rw [List.sum_cons, h a (List.mem_cons_self _ _),
      ih (fun x hx => h x (List.mem_cons_of_mem _ hx))]

/-- C15: for every input on which `convert` succeeds and every table, taken as entry `k` of
the entries `T` that `write_tables` returns (the tables in the order written, with the
recorded output offset and length): with `p` the position in the output file at which the
block of the table begins, which is `12 + 16*N` plus the lengths of the blocks written before
it and of which the recorded output offset holds the low 32 bits, every byte of the output
file at a position in `[p + length, p + pad4(length))` is zero, and these positions are all
inside the output file when the length is at most `2^32 - 4`. -/
theorem C15_padding_is_zero (w : World) (input : List byte_t)
    (h : (convert w (some input) true).result = true) :
    ∃ T s, write_tables w (woff_directory input) (woff_num_tables input)
        (after_directory w input) = (.ok T, s) ∧
      T.length = woff_num_tables input ∧
      ∀ k e, T[k]? = some e →
        bswap32 e.offset = (12 + 16 * woff_num_tables input +
          ((T.take k).map (fun a => padded (bswap32 a.orig_length))).sum) % 4294967296 ∧
        (bswap32 e.orig_length ≤ 4294967292 →
          12 + 16 * woff_num_tables input +
            ((T.take k).map (fun a => padded (bswap32 a.orig_length))).sum +
            pad4 (bswap32 e.orig_length) ≤ (convert w (some input) true).ot_file.length) ∧
        ∀ j, 12 + 16 * woff_num_tables input +
            ((T.take k).map (fun a => padded (bswap32 a.orig_length))).sum +
            bswap32 e.orig_length ≤ j →
          j < 12 + 16 * woff_num_tables input +
            ((T.take k).map (fun a => padded (bswap32 a.orig_length))).sum +
            pad4 (bswap32 e.orig_length) →
          j < (convert w (some input) true).ot_file.length →
          (convert w (some input) true).ot_file[j]? = some 0 := by
  obtain ⟨_, hdir, _, s, hwt, _, _, _⟩ := convert_success w input h
  obtain ⟨hblocks, hfit, hlen⟩ := convert_success_blocks w input h
  refine ⟨written input, s, hwt, written_length input, ?_⟩
  intro k e hke
  have hbound := write_order_orig_length_lt (woff_directory input)
  have htake : ((written input).take k).map (fun a => padded (bswap32 a.orig_length))
      = ((write_order (woff_directory input)).take k).map (fun a => padded a.orig_length) := by
    rw [List.map_take, written, recorded_map_padded _ _ hbound, ← List.map_take]
  rw [htake]
  rw [written, recorded_getElem_opt] at hke
  rcases hk0 : (write_order (woff_directory input))[k]? with _ | e0
  · rw [hk0] at hke; simp at hke
  rw [hk0, Option.map_some', Option.some.injEq] at hke
  obtain ⟨hk, hk1⟩ := List.getElem?_eq_some_iff.1 hk0
  have he0 : e0 ∈ write_order (woff_directory input) := hk1 ▸ List.getElem_mem hk
  have hlt0 := hbound e0 he0
  have hoff : bswap32 e.offset = (12 + woff_num_tables input * 16 +
      (((write_order (woff_directory input)).take k).map
        (fun a => padded a.orig_length)).sum) % 4294967296 := by
    rw [← hke]; simp only [recorded_entry, bswap32_bswap32]
  have hlen0 : bswap32 e.orig_length = e0.orig_length := by
    rw [← hke]; simp only [recorded_entry, bswap32_bswap32]; exact Nat.mod_eq_of_lt hlt0
  rw [hlen0]
  have hsplit : ((write_order (woff_directory input)).map (fun a => padded a.orig_length)).sum
      = (((write_order (woff_directory input)).take k).map
          (fun a => padded a.orig_length)).sum + padded e0.orig_length +
        (((write_order (woff_directory input)).drop (k + 1)).map
          (fun a => padded a.orig_length)).sum := by
    conv_lhs => rw [← List.take_append_drop k (write_order (woff_directory input))]
    rw [List.drop_eq_getElem_cons hk, hk1]
    simp only [List.map_append, List.sum_append, List.map_cons, List.sum_cons]
    omega
  refine ⟨by rw [hoff]; congr 2; omega, ?_, ?_⟩
  · intro hsmall
    have hp : padded e0.orig_length = pad4 e0.orig_length := by
      rw [padded_eq]; unfold pad4; omega
    rw [hlen, hsplit, hp]
    omega
  · intro j hj1 hj2 hj3
    by_cases hsmall : e0.orig_length ≤ 4294967292
    · have hp : padded e0.orig_length = pad4 e0.orig_length := by
        rw [padded_eq]; unfold pad4; omega
      have hz := zero_padded_blocks_getElem _ _ hblocks k hk
        (j - (12 + woff_num_tables input * 16 +
          (((write_order (woff_directory input)).take k).map
            (fun a => padded a.orig_length)).sum))
        (by rw [hk1]; omega) (by rw [hk1, hp]; omega)
      rw [List.getElem?_drop] at hz
      rw [← hz]
      congr 1
      omega
    · exfalso
      have hs := scratch_size_small _ e0 he0 (by omega)
      have hzero : ((write_order (woff_directory input)).map
          (fun a => padded a.orig_length)).sum = 0 := by
        apply sum_eq_zero_of_forall
        intro x hx
        rw [List.mem_map] at hx
        obtain ⟨a, ha, rfl⟩ := hx
        have := hfit a ha
        have := padded_mod4 a.orig_length
        omega
      rw [hlen, hzero] at hj3
      omega

/-- C15, witness: on `woff_long_then_short` the eight bytes of `aaaa` are written at position
44 and the five bytes of `bbbb` at position 52 from the same buffer, and the three bytes that
follow them are zero. -/
theorem C15_padding_is_zero_witness :
    (∃ T s, write_tables sample_world (woff_directory woff_long_then_short)
        (woff_num_tables woff_long_then_short)
        (after_directory sample_world woff_long_then_short) = (.ok T, s) ∧
      T.length = woff_num_tables woff_long_then_short ∧
      ∀ k e, T[k]? = some e →
        bswap32 e.offset = (12 + 16 * woff_num_tables woff_long_then_short +
          ((T.take k).map (fun a => padded (bswap32 a.orig_length))).sum) % 4294967296 ∧
        (bswap32 e.orig_length ≤ 4294967292 →
          12 + 16 * woff_num_tables woff_long_then_short +
            ((T.take k).map (fun a => padded (bswap32 a.orig_length))).sum +
            pad4 (bswap32 e.orig_length)
            ≤ (convert sample_world (some woff_long_then_short) true).ot_file.length) ∧
        ∀ j, 12 + 16 * woff_num_tables woff_long_then_short +
            ((T.take k).map (fun a => padded (bswap32 a.orig_length))).sum +
            bswap32 e.orig_length ≤ j →
          j < 12 + 16 * woff_num_tables woff_long_then_short +
            ((T.take k).map (fun a => padded (bswap32 a.orig_length))).sum +
            pad4 (bswap32 e.orig_length) →
          j < (convert sample_world (some woff_long_then_short) true).ot_file.length →
          (convert sample_world (some woff_long_then_short) true).ot_file[j]? = some 0) ∧
    (convert sample_world (some woff_long_then_short) true).ot_file.drop 44
      = [88, 88, 88, 88, 88, 88, 88, 88, 89, 89, 89, 89, 89, 0, 0, 0] :=
  ⟨C15_padding_is_zero sample_world woff_long_then_short (by decide!), by decide!⟩

end Woff2ot
